/-
Verification of the footnote/citation extraction engine
(src/lib/footnotes.ts and src/lib/citations.ts).

Strings from the TypeScript code are modelled as `List Char` (`Str`);
JavaScript string primitives (`substring`, `trimStart`, `trimEnd`, `trim`)
are modelled by executable functions with JS clamping semantics.
-/
import Mathlib

set_option autoImplicit false
set_option maxHeartbeats 1000000

/-- Strings of the embedded program: JS strings as lists of characters. -/
abbrev Str := List Char

/-- Helper to write string literals of the embedded program. -/
def str (s : String) : Str := s.toList

/-- Model of JS `String.prototype.substring(a, b)`: clamps both indices to
`[0, length]` and swaps them when `a > b`. -/
def jsSubstring2 (s : Str) (a b : Nat) : Str :=
  let a' := min a s.length
  let b' := min b s.length
  (s.take (max a' b')).drop (min a' b')

/-- Model of JS `String.prototype.substring(a)` (one-argument form). -/
def jsSubstringFrom (s : Str) (a : Nat) : Str :=
  s.drop (min a s.length)

/-- Characters treated as whitespace by the JS `\s` regex class and by
`trim`/`trimStart`/`trimEnd` (ASCII part; the code never feeds it other
whitespace). -/
def isJsSpace (c : Char) : Bool :=
  c = ' ' || c = '\t' || c = '\n' || c = '\r' || c = '\x0b' || c = '\x0c'

/-- Model of JS `String.prototype.trimStart`. -/
def jsTrimStart (s : Str) : Str := s.dropWhile isJsSpace

/-- Model of JS `String.prototype.trimEnd`. -/
def jsTrimEnd (s : Str) : Str := (s.reverse.dropWhile isJsSpace).reverse

/-- Model of JS `String.prototype.trim`. -/
def jsTrim (s : Str) : Str := jsTrimEnd (jsTrimStart s)

theorem jsSubstring2_zero (s : Str) (b : Nat) (hb : b ≤ s.length) :
    jsSubstring2 s 0 b = s.take b := by
  simp [jsSubstring2, Nat.min_eq_left hb]

theorem jsSubstringFrom_eq_drop (s : Str) (a : Nat) :
    jsSubstringFrom s a = s.drop a := by
  rcases Nat.le_total a s.length with h | h
  · simp [jsSubstringFrom, Nat.min_eq_left h]
  · simp [jsSubstringFrom, Nat.min_eq_right h, List.drop_eq_nil_of_le h,
      List.drop_eq_nil_of_le (Nat.le_refl s.length)]

-- ============================================================================
-- RichText span model (interfaces.ts shapes used by footnotes.ts/citations.ts)
-- ============================================================================

/-- The per-span formatting record (`Annotation` in the source; renamed). -/
structure Annot where
  Bold : Bool := false
  Italic : Bool := false
  Strikethrough : Bool := false
  Underline : Bool := false
  Code : Bool := false
  Color : Str := str "default"
deriving DecidableEq, Repr

/-- `Text.Link` payload. -/
structure TextLink where
  Url : Str := []
deriving DecidableEq, Repr

/-- `Text` payload of a rich text span. -/
structure TextContent where
  Content : Str := []
  Link : Option TextLink := none
deriving DecidableEq, Repr

/-- `Equation` payload. -/
structure EquationV where
  Expression : Str := []
deriving DecidableEq, Repr

/-- `InterlinkedContent` (used for `Mention.Page` and `InternalHref`).
`Type'` embeds the source field `Type` (a Lean keyword). -/
structure InterlinkedContent where
  PageId : Str := []
  Type' : Str := []
deriving DecidableEq, Repr

/-- `Mention.LinkMention` payload. -/
structure LinkMentionV where
  Href : Option Str := none
  Title : Option Str := none
  IconUrl : Option Str := none
  Description : Option Str := none
  LinkAuthor : Option Str := none
  ThumbnailUrl : Option Str := none
  Height : Option Int := none
  IframeUrl : Option Str := none
  LinkProvider : Option Str := none
deriving DecidableEq, Repr

/-- `Mention.CustomEmoji` payload. -/
structure CustomEmojiV where
  Name : Option Str := none
  Url : Option Str := none
deriving DecidableEq, Repr

/-- `Mention` payload of a rich text span.
`Type'` embeds the source field `Type` (a Lean keyword). -/
structure Mention where
  Type' : Str := []
  Page : Option InterlinkedContent := none
  DateStr : Option Str := none
  LinkMention : Option LinkMentionV := none
  CustomEmoji : Option CustomEmojiV := none
deriving DecidableEq, Repr

/-- One annotated text run (`RichText` in interfaces.ts).  The field
`Annot` embeds the source's annotation record. -/
structure RichText where
  PlainText : Str := []
  Href : Option Str := none
  Text : Option TextContent := none
  Annot : Annot := {}
  Equation : Option EquationV := none
  Mention : Option Mention := none
  InternalHref : Option InterlinkedContent := none
  IsFootnoteMarker : Bool := false
  FootnoteRef : Option Str := none
  IsCitationMarker : Bool := false
  CitationRef : Option Str := none
deriving DecidableEq, Repr

/-- footnotes.ts `joinPlainText`: concatenation of the `PlainText` fields. -/
def joinPlainText (richTexts : List RichText) : Str :=
  (richTexts.map (·.PlainText)).flatten

/-- footnotes.ts `cloneRichText`: each `{...obj}` spread is embedded as a
field-by-field copy (value-level; aliasing behaviour of the spreads is
studied separately in the `CloneModel` namespace). -/
def cloneRichText (richText : RichText) : RichText :=
  { richText with
    Text := richText.Text.map fun t =>
      { Content := t.Content, Link := t.Link.map fun l => { Url := l.Url } }
    Annot :=
      { Bold := richText.Annot.Bold, Italic := richText.Annot.Italic,
        Strikethrough := richText.Annot.Strikethrough,
        Underline := richText.Annot.Underline, Code := richText.Annot.Code,
        Color := richText.Annot.Color }
    Equation := richText.Equation.map fun e => { Expression := e.Expression }
    Mention := richText.Mention.map fun m =>
      { Type' := m.Type', Page := m.Page, DateStr := m.DateStr,
        LinkMention := m.LinkMention, CustomEmoji := m.CustomEmoji }
    InternalHref := richText.InternalHref.map fun h =>
      { PageId := h.PageId, Type' := h.Type' } }

theorem cloneRichText_eq (rt : RichText) : cloneRichText rt = rt := by
  cases rt with
  | mk pt href text annot eq mention ihref ifm fr icm cr =>
    simp only [cloneRichText]
    cases text with
    | none => cases eq <;> cases mention <;> cases ihref <;> rfl
    | some t =>
      cases t with
      | mk content link =>
        cases link <;> cases eq <;> cases mention <;> cases ihref <;> rfl

/-- Overwrite a span's `PlainText` and, when a `Text` payload exists, its
`Content` with the same string (the pattern
`part.PlainText = s; if (part.Text) part.Text.Content = part.PlainText`). -/
def setRichTextPT (rt : RichText) (s : Str) : RichText :=
  { rt with PlainText := s, Text := rt.Text.map fun t => { t with Content := s } }

/-- Apply a string transformation to `PlainText` and (independently) to
`Text.Content` when present (the trimming pattern in
`extractRichTextRange`). -/
def mapRichTextPT (f : Str → Str) (rt : RichText) : RichText :=
  { rt with
    PlainText := f rt.PlainText
    Text := rt.Text.map fun t => { t with Content := f t.Content } }

/-- Recursive worker for `splitRichTextsAtCharPosition`; `cur` is the
`currentPos` accumulator of the source's `for` loop. -/
def splitGo (k : Nat) : List RichText → Nat → List RichText × List RichText
  | [], _ => ([], [])
  | rt :: rest, cur =>
    let len := rt.PlainText.length
    let prev := splitGo k rest (cur + len)
    if k ≤ cur then
      (prev.1, rt :: prev.2)
    else if cur + len ≤ k then
      (rt :: prev.1, prev.2)
    else
      let off := k - cur
      let beforePart := setRichTextPT (cloneRichText rt) (jsSubstring2 rt.PlainText 0 off)
      let afterPart := setRichTextPT (cloneRichText rt) (jsSubstringFrom rt.PlainText off)
      ((if 0 < off then [beforePart] else []) ++ prev.1,
       (if off < len then [afterPart] else []) ++ prev.2)

/-- footnotes.ts `splitRichTextsAtCharPosition` (the identical private copy
in citations.ts is embedded by this same definition). -/
def splitRichTextsAtCharPosition (richTexts : List RichText) (splitCharPos : Nat) :
    List RichText × List RichText :=
  splitGo splitCharPos richTexts 0

theorem joinPlainText_nil : joinPlainText [] = [] := rfl

theorem joinPlainText_cons (rt : RichText) (rts : List RichText) :
    joinPlainText (rt :: rts) = rt.PlainText ++ joinPlainText rts := by
  simp [joinPlainText]

theorem joinPlainText_append (xs ys : List RichText) :
    joinPlainText (xs ++ ys) = joinPlainText xs ++ joinPlainText ys := by
  simp [joinPlainText]

theorem splitGo_join (k : Nat) : ∀ (rts : List RichText) (cur : Nat),
    joinPlainText (splitGo k rts cur).1 = (joinPlainText rts).take (k - cur) ∧
    joinPlainText (splitGo k rts cur).2 = (joinPlainText rts).drop (k - cur)
  | [], cur => by simp [splitGo, joinPlainText]
  | rt :: rest, cur => by
    have ih := splitGo_join k rest (cur + rt.PlainText.length)
    simp only [splitGo]
    by_cases h1 : k ≤ cur
    · have hk : k - cur = 0 := by omega
      have hk' : k - (cur + rt.PlainText.length) = 0 := by omega
      rw [hk'] at ih
      simp only [if_pos h1, joinPlainText_cons, hk]
      constructor
      · simpa using ih.1
      · simp only [List.drop_zero] at ih ⊢
        rw [ih.2]
    · by_cases h2 : cur + rt.PlainText.length ≤ k
      · simp only [if_neg h1, if_pos h2, joinPlainText_cons]
        constructor
        · rw [ih.1, List.take_append_eq_append_take]
          have hpt : rt.PlainText.length ≤ k - cur := by omega
          rw [List.take_of_length_le hpt]
          have h0 : k - cur - rt.PlainText.length = k - (cur + rt.PlainText.length) := by omega
          rw [h0]
        · rw [ih.2, List.drop_append_eq_append_drop]
          have hpt : rt.PlainText.length ≤ k - cur := by omega
          rw [List.drop_eq_nil_of_le hpt]
          have h0 : k - cur - rt.PlainText.length = k - (cur + rt.PlainText.length) := by omega
          rw [h0, List.nil_append]
      · have hoff : 0 < k - cur := by omega
        have hoffl : k - cur < rt.PlainText.length := by omega
        have hk' : k - (cur + rt.PlainText.length) = 0 := by omega
        rw [hk'] at ih
        simp only [if_neg h1, if_neg h2, if_pos hoff, if_pos hoffl]
        simp only [joinPlainText_append, joinPlainText_cons, joinPlainText_nil]
        have hbt : (setRichTextPT (cloneRichText rt)
            (jsSubstring2 rt.PlainText 0 (k - cur))).PlainText
            = rt.PlainText.take (k - cur) := by
          rw [jsSubstring2_zero _ _ (by omega)]; rfl
        have hat : (setRichTextPT (cloneRichText rt)
            (jsSubstringFrom rt.PlainText (k - cur))).PlainText
            = rt.PlainText.drop (k - cur) := by
          rw [jsSubstringFrom_eq_drop]; rfl
        constructor
        · rw [hbt, ih.1]
          rw [List.take_append_eq_append_take]
          have h0 : k - cur - rt.PlainText.length = 0 := by omega
          rw [h0]
          simp
        · rw [hat, ih.2]
          rw [List.drop_append_eq_append_drop]
          have h0 : k - cur - rt.PlainText.length = 0 := by omega
          rw [h0]
          simp

theorem split_join_take (rts : List RichText) (k : Nat) :
    joinPlainText (splitRichTextsAtCharPosition rts k).1 = (joinPlainText rts).take k := by
  have := splitGo_join k rts 0
  simpa [splitRichTextsAtCharPosition] using this.1

theorem split_join_drop (rts : List RichText) (k : Nat) :
    joinPlainText (splitRichTextsAtCharPosition rts k).2 = (joinPlainText rts).drop k := by
  have := splitGo_join k rts 0
  simpa [splitRichTextsAtCharPosition] using this.2

-- ============================================================================
-- extractRichTextRange
-- ============================================================================

/-- Modify the last element of a list (the in-place mutation of
`result[result.length - 1]`). -/
def modifyLast {α : Type} (f : α → α) : List α → List α
  | [] => []
  | [x] => [f x]
  | x :: y :: xs => x :: modifyLast f (y :: xs)

/-- Recursive worker for `extractRichTextRange` (the `for` loop). -/
def extractRangeGo (startChar endChar : Nat) : List RichText → Nat → List RichText
  | [], _ => []
  | rt :: rest, cur =>
    let len := rt.PlainText.length
    let tail := extractRangeGo startChar endChar rest (cur + len)
    if startChar < cur + len ∧ cur < endChar then
      let sliceStart := startChar - cur
      let sliceEnd := min len (endChar - cur)
      let slicedText := jsSubstring2 rt.PlainText sliceStart sliceEnd
      if 0 < slicedText.length then setRichTextPT (cloneRichText rt) slicedText :: tail
      else tail
    else tail

/-- footnotes.ts `extractRichTextRange`: slice of `[startChar, endChar)` with
whitespace trimmed only on the first and last resulting span. -/
def extractRichTextRange (richTexts : List RichText) (startChar endChar : Nat) :
    List RichText :=
  let result := extractRangeGo startChar endChar richTexts 0
  match result with
  | [] => []
  | _ => modifyLast (mapRichTextPT jsTrimEnd) (result.modifyHead (mapRichTextPT jsTrimStart))

-- ============================================================================
-- Regex pattern matchers (executable models of the source's regexes)
-- ============================================================================

/-- One regex match: `index` (`match.index`), the captured `key`
(`match[1]`) and the full matched text (`match[0]`). -/
structure ScanM where
  index : Nat
  key : Str
  matched : Str
deriving DecidableEq, Repr

/-- Match a literal string at the head of the input, returning the rest. -/
def tryLit : Str → Str → Option Str
  | [], cs => some cs
  | _ :: _, [] => none
  | l :: ls, c :: cs => if c = l then  tryLit ls cs else none

theorem tryLit_eq : ∀ (lit cs rest : Str), tryLit lit cs = some rest → cs = lit ++ rest
  | [], cs, rest => by intro h; simp [tryLit] at h; simp [h]
  | _ :: _, [], _ => by simp [tryLit]
  | l :: ls, c :: cs, rest => by
    simp only [tryLit]
    by_cases h : c = l
    · rw [if_pos h]
      intro hr
      have := tryLit_eq ls cs rest hr
      simp [h, this]
    · rw [if_neg h]; intro hr; cases hr

/-- The `[a-zA-Z0-9_]` character class (also the `\w` class). -/
def isWordChar (c : Char) : Bool := c.isAlpha || c.isDigit || c = '_'

/-- The `[a-zA-Z0-9_\-:]` character class of the citation key patterns. -/
def isCiteKeyChar (c : Char) : Bool :=
  c.isAlpha || c.isDigit || c = '_' || c = '-' || c = ':'

/-- Matcher for the inline footnote marker pattern
`\[\^<markerPfx>([a-zA-Z0-9_]+)\](?!:)` at the start of the input.
Returns `(capture, match[0])`. -/
def tryFootnoteMarkerAt (markerPfx : Str) (cs : Str) : Option (Str × Str) :=
  match  tryLit (str "[^" ++ markerPfx) cs with
  | none => none
  | some rest =>
    if (rest.takeWhile isWordChar).isEmpty then none
    else
      match rest.dropWhile isWordChar with
      | ']' :: rest2 =>
        if rest2.head? = some ':' then none
        else
          some (rest.takeWhile isWordChar,
            str "[^" ++ markerPfx ++ rest.takeWhile isWordChar ++ [']'])
      | _ => none

/-- Matcher for the footnote definition pattern
`\n\n\[\^<markerPfx>([a-zA-Z0-9_]+)\]:\s*` at the start of the input. -/
def tryDefMatchAt (markerPfx : Str) (cs : Str) : Option (Str × Str) :=
  match  tryLit (str "\n\n[^" ++ markerPfx) cs with
  | none => none
  | some rest =>
    if (rest.takeWhile isWordChar).isEmpty then none
    else
      match rest.dropWhile isWordChar with
      | ']' :: ':' :: rest2 =>
        some (rest.takeWhile isWordChar,
          str "\n\n[^" ++ markerPfx ++ rest.takeWhile isWordChar ++ str "]:" ++
            rest2.takeWhile isJsSpace)
      | _ => none

/-- Matcher for `createContentPattern`'s `\[\^<escaped markerPfx>(\w+)\]:\s*`
(the `^`/`m` anchoring is handled by the scan loop). -/
def tryContentMatchAt (markerPfx : Str) (cs : Str) : Option (Str × Str) :=
  match  tryLit (str "[^" ++ markerPfx) cs with
  | none => none
  | some rest =>
    if (rest.takeWhile isWordChar).isEmpty then none
    else
      match rest.dropWhile isWordChar with
      | ']' :: ':' :: rest2 =>
        some (rest.takeWhile isWordChar,
          str "[^" ++ markerPfx ++ rest.takeWhile isWordChar ++ str "]:" ++
            rest2.takeWhile isJsSpace)
      | _ => none

/-- Matcher for the citation token patterns: a literal opener, a nonempty
key run, and a closing delimiter (`[@key]`, `\cite{key}`, `#cite(key)`). -/
def tryDelimKeyAt (pre : Str) (post : Char) (cs : Str) : Option (Str × Str) :=
  match  tryLit pre cs with
  | none => none
  | some rest =>
    if (rest.takeWhile isCiteKeyChar).isEmpty then none
    else
      match rest.dropWhile isCiteKeyChar with
      | c :: _ =>
        if c = post then
          some (rest.takeWhile isCiteKeyChar,
            pre ++ rest.takeWhile isCiteKeyChar ++ [post])
        else none
      | [] => none

/-- Fuelled worker for `scanAux` (structural recursion on the fuel; the scan
consumes at least one character per step, so fuel `cs.length` is enough). -/
def scanAuxF (tm : Str → Option (Str × Str)) (anchored : Bool) :
    Nat → Str → Nat → Bool → List ScanM
  | 0, _, _, _ => []
  | _ + 1, [], _, _ => []
  | fuel + 1, c :: rest, pos, atStart =>
    if anchored ∧ atStart = false then
      scanAuxF tm anchored fuel rest (pos + 1) (c = '\n')
    else
      match tm (c :: rest) with
      | some (key, matched) =>
        ⟨pos, key, matched⟩ ::
          scanAuxF tm anchored fuel (rest.drop (matched.length - 1))
            (pos + matched.length) (matched.getLast? = some '\n')
      | none => scanAuxF tm anchored fuel rest (pos + 1) (c = '\n')

/-- The model of a JS global-regex `exec` loop: scan left to right, attempt
the matcher at each position (only at line starts when `anchored`, modelling
the `m`-flag `^`), and on a match continue after its end (`lastIndex`). -/
def scanAux (tm : Str → Option (Str × Str)) (anchored : Bool)
    (cs : Str) (pos : Nat) (atStart : Bool) : List ScanM :=
  scanAuxF tm anchored cs.length cs pos atStart

/-- First match of an anchored pattern from position 0 (the
`pattern.lastIndex = 0; pattern.exec(text)` idiom). -/
def contentFirstMatch (markerPfx : Str) (cs : Str) : Option ScanM :=
  (scanAux (tryContentMatchAt markerPfx) true cs 0 true).head?

/-- Model of `regex.exec(text)` with an explicit `lastIndex` state (the
stateful global-regex iteration idiom): returns the match (if any) and the
regex's new `lastIndex`. -/
def execFirst (tm : Str → Option (Str × Str)) (anchored : Bool) (cs : Str)
    (lastIndex : Nat) : Option ScanM × Nat :=
  if cs.length < lastIndex then (none, 0)
  else
    let atStart : Bool := lastIndex = 0 || cs[lastIndex - 1]? = some '\n'
    match (scanAux tm anchored (cs.drop lastIndex) lastIndex atStart).head? with
    | some m => (some m, m.index + m.matched.length)
    | none => (none, 0)

/-- First index of a literal substring (the `fullText.match(/\n\n\[\^/)`
lookup). -/
def indexOfFrom (needle : Str) : Str → Nat → Option Nat
  | [], pos => if needle.isEmpty then some pos else none
  | c :: rest, pos =>
    if needle.isPrefixOf (c :: rest) then some pos
    else indexOfFrom needle rest (pos + 1)

theorem take_length_append (m rest : Str) : (m ++ rest).take m.length = m := by
  rw [List.take_append_eq_append_take]
  simp

/-- Property shared by all pattern matchers: a returned `match[0]` is a
nonempty prefix of the scanned text. -/
def MatcherSpec (tm : Str → Option (Str × Str)) : Prop :=
  ∀ cs k m, tm cs = some (k, m) → m ≠ [] ∧ cs.take m.length = m

theorem tryFootnoteMarkerAt_spec (markerPfx : Str) :
    MatcherSpec (tryFootnoteMarkerAt markerPfx) := by
  intro cs k m h
  unfold tryFootnoteMarkerAt at h
  split at h
  · cases h
  · rename_i rest hlit
    split at h
    · cases h
    · rename_i hk
      split at h
      · rename_i rest2 hdw
        split at h
        · cases h
        · injection h with h'
          injection h' with h1 h2
          have hcs := tryLit_eq _ _ _ hlit
          set K := rest.takeWhile isWordChar with hK
          have hrest : K ++ (']' :: rest2) = rest := by
            rw [hK, ← hdw]
            exact List.takeWhile_append_dropWhile isWordChar rest
          subst h2
          constructor
          · intro hnil
            obtain ⟨h1', h2'⟩ := List.append_eq_nil.mp hnil
            exact List.cons_ne_nil _ _ h2'
          · have hcs2 : cs = (str "[^" ++ markerPfx ++ K ++ [']']) ++ rest2 := by
              rw [hcs, ← hrest]
              simp
            rw [hcs2, take_length_append]
      · cases h

theorem tryDefMatchAt_spec (markerPfx : Str) :
    MatcherSpec (tryDefMatchAt markerPfx) := by
  intro cs k m h
  unfold tryDefMatchAt at h
  split at h
  · cases h
  · rename_i rest hlit
    split at h
    · cases h
    · rename_i hk
      split at h
      · rename_i rest2 hdw
        injection h with h'
        injection h' with h1 h2
        have hcs := tryLit_eq _ _ _ hlit
        set K := rest.takeWhile isWordChar with hK
        set D := rest2.dropWhile isJsSpace with hD
        set W := rest2.takeWhile isJsSpace with hW
        have hrest : K ++ (']' :: ':' :: rest2) = rest := by
          rw [hK, ← hdw]
          exact List.takeWhile_append_dropWhile isWordChar rest
        have hws : W ++ D = rest2 := by
          rw [hW, hD]
          exact List.takeWhile_append_dropWhile isJsSpace rest2
        subst h2
        constructor
        · intro hnil
          obtain ⟨h1', _⟩ := List.append_eq_nil.mp hnil
          obtain ⟨_, h2'⟩ := List.append_eq_nil.mp h1'
          have hne : str "]:" ≠ ([] : Str) := by decide
          exact hne h2'
        · have hcolon : (str "]:" : Str) = ']' :: ':' :: [] := by decide
          have hcs2 : cs =
              (str "\n\n[^" ++ markerPfx ++ K ++ str "]:" ++ W) ++ D := by
            rw [hcs, ← hrest, ← hws, hcolon]
            simp
          rw [hcs2, take_length_append]
      · cases h

theorem tryContentMatchAt_spec (markerPfx : Str) :
    MatcherSpec (tryContentMatchAt markerPfx) := by
  intro cs k m h
  unfold tryContentMatchAt at h
  split at h
  · cases h
  · rename_i rest hlit
    split at h
    · cases h
    · rename_i hk
      split at h
      · rename_i rest2 hdw
        injection h with h'
        injection h' with h1 h2
        have hcs := tryLit_eq _ _ _ hlit
        set K := rest.takeWhile isWordChar with hK
        set D := rest2.dropWhile isJsSpace with hD
        set W := rest2.takeWhile isJsSpace with hW
        have hrest : K ++ (']' :: ':' :: rest2) = rest := by
          rw [hK, ← hdw]
          exact List.takeWhile_append_dropWhile isWordChar rest
        have hws : W ++ D = rest2 := by
          rw [hW, hD]
          exact List.takeWhile_append_dropWhile isJsSpace rest2
        subst h2
        constructor
        · intro hnil
          obtain ⟨h1', _⟩ := List.append_eq_nil.mp hnil
          obtain ⟨_, h2'⟩ := List.append_eq_nil.mp h1'
          have hne : str "]:" ≠ ([] : Str) := by decide
          exact hne h2'
        · have hcolon : (str "]:" : Str) = ']' :: ':' :: [] := by decide
          have hcs2 : cs =
              (str "[^" ++ markerPfx ++ K ++ str "]:" ++ W) ++ D := by
            rw [hcs, ← hrest, ← hws, hcolon]
            simp
          rw [hcs2, take_length_append]
      · cases h

theorem tryDelimKeyAt_spec (pre : Str) (post : Char) :
    MatcherSpec (tryDelimKeyAt pre post) := by
  intro cs k m h
  unfold tryDelimKeyAt at h
  split at h
  · cases h
  · rename_i rest hlit
    split at h
    · cases h
    · rename_i hk
      split at h
      · rename_i c rest2 hdw
        split at h
        · rename_i hc
          injection h with h'
          injection h' with h1 h2
          have hcs := tryLit_eq _ _ _ hlit
          set K := rest.takeWhile isCiteKeyChar with hK
          have hrest : K ++ (c :: rest2) = rest := by
            rw [hK, ← hdw]
            exact List.takeWhile_append_dropWhile isCiteKeyChar rest
          subst h2
          subst hc
          constructor
          · intro hnil
            obtain ⟨h1', h2'⟩ := List.append_eq_nil.mp hnil
            exact List.cons_ne_nil _ _ h2'
          · have hcs2 : cs = (pre ++ K ++ [c]) ++ rest2 := by
              rw [hcs, ← hrest]
              simp
            rw [hcs2, take_length_append]
        · cases h
      · cases h

/-- Every match reported by the fuelled scan starts at its reported index and
its `match[0]` is exactly the text at that index. -/
theorem scanAuxF_substring (tm : Str → Option (Str × Str)) (anchored : Bool)
    (htm : MatcherSpec tm) :
    ∀ (fuel : Nat) (cs : Str) (pos : Nat) (atStart : Bool) (s : ScanM),
      s ∈ scanAuxF tm anchored fuel cs pos atStart →
      ∃ off, s.index = pos + off ∧ (cs.drop off).take s.matched.length = s.matched
  | 0, cs, pos, atStart, s => by simp [scanAuxF]
  | _ + 1, [], pos, atStart, s => by simp [scanAuxF]
  | fuel + 1, c :: rest, pos, atStart, s => by
    rw [scanAuxF]
    split
    · intro hmem
      obtain ⟨off, h1, h2⟩ :=
        scanAuxF_substring tm anchored htm fuel rest (pos + 1) (c = '\n') s hmem
      exact ⟨off + 1, by omega, by simpa using h2⟩
    · split
      · rename_i key matched htmEq
        intro hmem
        rcases List.mem_cons.mp hmem with hhead | htail
        · subst hhead
          refine ⟨0, by simp, ?_⟩
          simpa using (htm _ _ _ htmEq).2
        · have hne := (htm _ _ _ htmEq).1
          have hlen : 1 ≤ matched.length := by
            cases matched with
            | nil => exact absurd rfl hne
            | cons a b => simp
          obtain ⟨off, h1, h2⟩ :=
            scanAuxF_substring tm anchored htm fuel (rest.drop (matched.length - 1))
              (pos + matched.length) (matched.getLast? = some '\n') s htail
          refine ⟨matched.length + off, by omega, ?_⟩
          have hdropEq : (c :: rest).drop (matched.length + off) =
              (rest.drop (matched.length - 1)).drop off := by
            rw [List.drop_drop]
            have : matched.length + off = (off + (matched.length - 1)) + 1 := by omega
            rw [this, List.drop_succ_cons, Nat.add_comm]
          rw [hdropEq]
          exact h2
      · intro hmem
        obtain ⟨off, h1, h2⟩ :=
          scanAuxF_substring tm anchored htm fuel rest (pos + 1) (c = '\n') s hmem
        exact ⟨off + 1, by omega, by simpa using h2⟩

/-- Every match reported by the scan loop starts at its reported index and its
`match[0]` is exactly the text at that index. -/
theorem scanAux_substring (tm : Str → Option (Str × Str)) (anchored : Bool)
    (htm : MatcherSpec tm) (cs : Str) (pos : Nat) (atStart : Bool) (s : ScanM)
    (hmem : s ∈ scanAux tm anchored cs pos atStart) :
    ∃ off, s.index = pos + off ∧ (cs.drop off).take s.matched.length = s.matched :=
  scanAuxF_substring tm anchored htm cs.length cs pos atStart s hmem

-- ============================================================================
-- Block model (the tagged-union Block of interfaces.ts, fields used by the
-- extraction engine)
-- ============================================================================

/-- Content of a rich-text-bearing container variant (Paragraph, Heading1-3,
BulletedListItem, NumberedListItem, ToDo, Quote, Callout, Toggle). -/
structure BParaF (B : Type) where
  RichTexts : List RichText := []
  Children : Option (List B) := none

/-- Content of the SyncedBlock variant (children only). -/
structure BSyncedF (B : Type) where
  Children : Option (List B) := none

/-- Content of a caption-bearing variant (Code, NImage, Video, NAudio, File,
Embed, Bookmark, LinkPreview); only the caption is indexed. -/
structure BCaptioned where
  Caption : Option (List RichText) := none
deriving DecidableEq, Repr

/-- One table cell. -/
structure BTableCell where
  RichTexts : List RichText := []
deriving DecidableEq, Repr

/-- One table row. -/
structure BTableRow where
  Cells : List BTableCell := []
deriving DecidableEq, Repr

/-- The Table variant. -/
structure BTable where
  Rows : Option (List BTableRow) := none
deriving DecidableEq, Repr

/-- The record of variant fields of a block; `B` is the type of child
blocks. -/
structure BlockF (B : Type) where
  Id : Str := []
  Paragraph : Option (BParaF B) := none
  Heading1 : Option (BParaF B) := none
  Heading2 : Option (BParaF B) := none
  Heading3 : Option (BParaF B) := none
  BulletedListItem : Option (BParaF B) := none
  NumberedListItem : Option (BParaF B) := none
  ToDo : Option (BParaF B) := none
  Quote : Option (BParaF B) := none
  Callout : Option (BParaF B) := none
  Toggle : Option (BParaF B) := none
  SyncedBlock : Option (BSyncedF B) := none
  Code : Option BCaptioned := none
  NImage : Option BCaptioned := none
  Video : Option BCaptioned := none
  NAudio : Option BCaptioned := none
  File : Option BCaptioned := none
  Embed : Option BCaptioned := none
  Bookmark : Option BCaptioned := none
  LinkPreview : Option BCaptioned := none
  Table : Option BTable := none

/-- A block: the knot-tying of `BlockF` (children are blocks again). -/
inductive Block where
  | mk : BlockF Block → Block

/-- Field record of a block. -/
def Block.fields : Block → BlockF Block
  | .mk f => f

@[simp] theorem Block.fields_mk (f : BlockF Block) : (Block.mk f).fields = f := rfl

/-- Identifier of the rich-text location inside a block.  The source uses
property-path strings ("Paragraph.RichTexts", "Table.Rows[r].Cells[c]", ...);
those strings are in bijection with this enumeration, which also carries the
write-back target (the source's `setter` closure is `setPath` at this path). -/
inductive LocPath where
  | paragraph
  | heading1
  | heading2
  | heading3
  | bulletedListItem
  | numberedListItem
  | toDo
  | quote
  | callout
  | toggle
  | codeCaption
  | nimageCaption
  | videoCaption
  | naudioCaption
  | fileCaption
  | embedCaption
  | bookmarkCaption
  | linkPreviewCaption
  | tableCell (row col : Nat)
deriving DecidableEq, Repr

/-- Model of `property.includes("Caption")` on the property-path string. -/
def LocPath.isCaption : LocPath → Bool
  | .codeCaption | .nimageCaption | .videoCaption | .naudioCaption
  | .fileCaption | .embedCaption | .bookmarkCaption | .linkPreviewCaption => true
  | _ => false

/-- Model of `property.includes("Table")` on the property-path string. -/
def LocPath.isTable : LocPath → Bool
  | .tableCell _ _ => true
  | _ => false

/-- The `SourceLocation` tag of a footnote. -/
inductive SourceLoc where
  | content
  | caption
  | table
  | comment
deriving DecidableEq, Repr

/-- The `SourceLocation` classification used by `extractEndOfBlockFootnotes`:
`property.includes("Caption") ? "caption" : property.includes("Table") ?
"table" : "content"`. -/
def LocPath.sourceLoc (p : LocPath) : SourceLoc :=
  if p.isCaption then .caption else if p.isTable then .table else .content

/-- Modify the element at an index, leaving the list unchanged when the index
is out of range (used for write-back into one table cell). -/
def modifyAt {α : Type} (f : α → α) : List α → Nat → List α
  | [], _ => []
  | x :: xs, 0 => f x :: xs
  | x :: xs, n + 1 => x :: modifyAt f xs n

theorem getElem?_modifyAt {α : Type} (f : α → α) : ∀ (l : List α) (i j : Nat),
    (modifyAt f l i)[j]? = if i = j then l[j]?.map f else l[j]?
  | [], i, j => by
    simp only [modifyAt]
    split <;> simp
  | x :: xs, 0, 0 => by simp [modifyAt]
  | x :: xs, 0, j + 1 => by simp [modifyAt]
  | x :: xs, i + 1, 0 => by simp [modifyAt]
  | x :: xs, i + 1, j + 1 => by
    by_cases hij : i = j
    · subst hij
      simp [modifyAt, getElem?_modifyAt f xs i i]
    · simp [modifyAt, getElem?_modifyAt f xs i j, hij]

/-- Read the rich-text sequence at a location path (the captured
`location.richTexts` reference). -/
def getPathOpt (b : Block) (p : LocPath) : Option (List RichText) :=
  let f := b.fields
  match p with
  | .paragraph => f.Paragraph.map (·.RichTexts)
  | .heading1 => f.Heading1.map (·.RichTexts)
  | .heading2 => f.Heading2.map (·.RichTexts)
  | .heading3 => f.Heading3.map (·.RichTexts)
  | .bulletedListItem => f.BulletedListItem.map (·.RichTexts)
  | .numberedListItem => f.NumberedListItem.map (·.RichTexts)
  | .toDo => f.ToDo.map (·.RichTexts)
  | .quote => f.Quote.map (·.RichTexts)
  | .callout => f.Callout.map (·.RichTexts)
  | .toggle => f.Toggle.map (·.RichTexts)
  | .codeCaption => f.Code.bind (·.Caption)
  | .nimageCaption => f.NImage.bind (·.Caption)
  | .videoCaption => f.Video.bind (·.Caption)
  | .naudioCaption => f.NAudio.bind (·.Caption)
  | .fileCaption => f.File.bind (·.Caption)
  | .embedCaption => f.Embed.bind (·.Caption)
  | .bookmarkCaption => f.Bookmark.bind (·.Caption)
  | .linkPreviewCaption => f.LinkPreview.bind (·.Caption)
  | .tableCell r c =>
    (((f.Table.bind (·.Rows)).bind (fun rows => rows[r]?)).bind
      (fun row => row.Cells[c]?)).map (·.RichTexts)

/-- Write a rich-text sequence back at a location path (the source's
`setter` closures; write-back is only ever invoked on locations that exist,
so an absent field is modelled as left unchanged). -/
def setPath (b : Block) (p : LocPath) (v : List RichText) : Block :=
  let f := b.fields
  Block.mk <|
    match p with
    | .paragraph => { f with Paragraph := f.Paragraph.map fun x => { x with RichTexts := v } }
    | .heading1 => { f with Heading1 := f.Heading1.map fun x => { x with RichTexts := v } }
    | .heading2 => { f with Heading2 := f.Heading2.map fun x => { x with RichTexts := v } }
    | .heading3 => { f with Heading3 := f.Heading3.map fun x => { x with RichTexts := v } }
    | .bulletedListItem =>
      { f with BulletedListItem := f.BulletedListItem.map fun x => { x with RichTexts := v } }
    | .numberedListItem =>
      { f with NumberedListItem := f.NumberedListItem.map fun x => { x with RichTexts := v } }
    | .toDo => { f with ToDo := f.ToDo.map fun x => { x with RichTexts := v } }
    | .quote => { f with Quote := f.Quote.map fun x => { x with RichTexts := v } }
    | .callout => { f with Callout := f.Callout.map fun x => { x with RichTexts := v } }
    | .toggle => { f with Toggle := f.Toggle.map fun x => { x with RichTexts := v } }
    | .codeCaption =>
      { f with Code := f.Code.map fun x => { x with Caption := x.Caption.map fun _ => v } }
    | .nimageCaption =>
      { f with NImage := f.NImage.map fun x => { x with Caption := x.Caption.map fun _ => v } }
    | .videoCaption =>
      { f with Video := f.Video.map fun x => { x with Caption := x.Caption.map fun _ => v } }
    | .naudioCaption =>
      { f with NAudio := f.NAudio.map fun x => { x with Caption := x.Caption.map fun _ => v } }
    | .fileCaption =>
      { f with File := f.File.map fun x => { x with Caption := x.Caption.map fun _ => v } }
    | .embedCaption =>
      { f with Embed := f.Embed.map fun x => { x with Caption := x.Caption.map fun _ => v } }
    | .bookmarkCaption =>
      { f with Bookmark := f.Bookmark.map fun x => { x with Caption := x.Caption.map fun _ => v } }
    | .linkPreviewCaption =>
      { f with LinkPreview := f.LinkPreview.map fun x => { x with Caption := x.Caption.map fun _ => v } }
    | .tableCell r c =>
      let updCell : BTableCell → BTableCell := fun cell => { cell with RichTexts := v }
      let updRow : BTableRow → BTableRow :=
        fun row => { row with Cells := modifyAt updCell row.Cells c }
      { f with Table := f.Table.map fun t => { t with Rows := t.Rows.map fun rows => modifyAt updRow rows r } }

theorem getPathOpt_setPath_same (b : Block) (p : LocPath) (v : List RichText) :
    getPathOpt (setPath b p v) p = (getPathOpt b p).map (fun _ => v) := by
  cases b with
  | mk f =>
    cases p
    case tableCell r c =>
      cases hT : f.Table with
      | none => simp [getPathOpt, setPath, hT]
      | some t =>
        cases hR : t.Rows with
        | none => simp [getPathOpt, setPath, hT, hR]
        | some rows =>
          cases hrow : rows[r]? with
          | none => simp [getPathOpt, setPath, hT, hR, getElem?_modifyAt, hrow]
          | some row =>
            cases hcell : row.Cells[c]? <;>
              simp [getPathOpt, setPath, hT, hR, getElem?_modifyAt, hrow, hcell]
    all_goals
      simp [getPathOpt, setPath, Option.map_map, Option.map_bind, Option.bind_map]
    all_goals rfl

theorem getPathOpt_setPath_ne (b : Block) (p q : LocPath) (v : List RichText)
    (h : ¬ q = p) : getPathOpt (setPath b p v) q = getPathOpt b q := by
  cases b with
  | mk f =>
    cases p <;> cases q
    case tableCell.tableCell r c r' c' =>
      by_cases hr : r = r'
      · subst hr
        have hc : ¬ c = c' := by
          intro hcc
          exact h (by rw [hcc])
        cases hT : f.Table with
        | none => simp [getPathOpt, setPath, hT]
        | some t =>
          cases hR : t.Rows with
          | none => simp [getPathOpt, setPath, hT, hR]
          | some rows =>
            cases hrow : rows[r]? with
            | none => simp [getPathOpt, setPath, hT, hR, getElem?_modifyAt, hrow]
            | some row =>
              cases hcell : row.Cells[c']? <;>
                simp [getPathOpt, setPath, hT, hR, getElem?_modifyAt, hrow, hcell, hc]
      · cases hT : f.Table with
        | none => simp [getPathOpt, setPath, hT]
        | some t =>
          cases hR : t.Rows with
          | none => simp [getPathOpt, setPath, hT, hR]
          | some rows =>
            simp [getPathOpt, setPath, hT, hR, getElem?_modifyAt, hr]
    all_goals
      first
      | exact absurd rfl h
      | simp [getPathOpt, setPath, Option.map_map, Option.map_bind, Option.bind_map]

-- ============================================================================
-- Location index (getAllRichTextLocations)
-- ============================================================================

/-- One addressable rich-text sequence of a block (`RichTextLocation`); the
source's `setter` closure is `setPath` at `path`. -/
structure RichTextLocation where
  path : LocPath
  richTexts : List RichText
deriving Repr

/-- The `addLocation` helper: include only present, nonempty sequences. -/
def locOf (p : LocPath) (o : Option (List RichText)) : List RichTextLocation :=
  match o with
  | some rts => if rts.isEmpty then [] else [⟨p, rts⟩]
  | none => []

/-- Table locations: one per cell, row-major (`Table.Rows[r].Cells[c]`). -/
def tableLocs (f : BlockF Block) : List RichTextLocation :=
  match f.Table with
  | none => []
  | some t =>
    match t.Rows with
    | none => []
    | some rows =>
      rows.enum.flatMap fun ri =>
        ri.2.Cells.enum.flatMap fun ci => locOf (.tableCell ri.1 ci.1) (some ci.2.RichTexts)

/-- footnotes.ts `getAllRichTextLocations`, in source order. -/
def getAllRichTextLocations (block : Block) : List RichTextLocation :=
  let f := block.fields
  locOf .paragraph (f.Paragraph.map (·.RichTexts)) ++
  locOf .heading1 (f.Heading1.map (·.RichTexts)) ++
  locOf .heading2 (f.Heading2.map (·.RichTexts)) ++
  locOf .heading3 (f.Heading3.map (·.RichTexts)) ++
  locOf .bulletedListItem (f.BulletedListItem.map (·.RichTexts)) ++
  locOf .numberedListItem (f.NumberedListItem.map (·.RichTexts)) ++
  locOf .toDo (f.ToDo.map (·.RichTexts)) ++
  locOf .quote (f.Quote.map (·.RichTexts)) ++
  locOf .callout (f.Callout.map (·.RichTexts)) ++
  locOf .toggle (f.Toggle.map (·.RichTexts)) ++
  locOf .codeCaption (f.Code.bind (·.Caption)) ++
  locOf .nimageCaption (f.NImage.bind (·.Caption)) ++
  locOf .videoCaption (f.Video.bind (·.Caption)) ++
  locOf .naudioCaption (f.NAudio.bind (·.Caption)) ++
  locOf .fileCaption (f.File.bind (·.Caption)) ++
  locOf .embedCaption (f.Embed.bind (·.Caption)) ++
  locOf .bookmarkCaption (f.Bookmark.bind (·.Caption)) ++
  locOf .linkPreviewCaption (f.LinkPreview.bind (·.Caption)) ++
  tableLocs f

theorem mem_locOf (p : LocPath) (o : Option (List RichText)) (loc : RichTextLocation)
    (h : loc ∈ locOf p o) : loc.path = p ∧ o = some loc.richTexts := by
  cases o with
  | none => cases h
  | some rts =>
    by_cases he : rts.isEmpty
    · simp [locOf, he] at h
    · simp [locOf, he] at h
      subst h
      exact ⟨rfl, rfl⟩

theorem mem_getAllRichTextLocations (b : Block) (loc : RichTextLocation)
    (h : loc ∈ getAllRichTextLocations b) : getPathOpt b loc.path = some loc.richTexts := by
  cases b with
  | mk f =>
    simp only [getAllRichTextLocations, Block.fields_mk, List.mem_append] at h
    rcases h with ((((((((((((((((((h | h) | h) | h) | h) | h) | h) | h) | h) | h) | h) | h)
        | h) | h) | h) | h) | h) | h) | h)
        <;> try
          (obtain ⟨hp, ho⟩ := mem_locOf _ _ _ h
           rw [hp]
           simpa [getPathOpt] using ho)
    -- table case
    unfold tableLocs at h
    split at h
    · cases h
    · rename_i t hT
      split at h
      · cases h
      · rename_i rows hR
        simp only [List.mem_flatMap] at h
        obtain ⟨⟨r, row⟩, hrow, ⟨⟨c, cell⟩, hcell, hloc⟩⟩ := h
        obtain ⟨hp, ho⟩ := mem_locOf _ _ _ hloc
        rw [hp]
        have hrow' : rows[r]? = some row := List.mk_mem_enum_iff_getElem?.mp hrow
        have hcell' : row.Cells[c]? = some cell := List.mk_mem_enum_iff_getElem?.mp hcell
        injection ho with ho'
        simp [getPathOpt, hT, hR, hrow', hcell']
        exact ho'

-- ============================================================================
-- Marker finder
-- ============================================================================

/-- The running-length walk locating the run containing character `pos`
(`for (let i = 0; ...) if (currentPos <= charStart && charStart < currentPos
+ len) ...`); returns the run index and the run. -/
def findOwnerRunGo : List RichText → Nat → Nat → Nat → Option (Nat × RichText)
  | [], _, _, _ => none
  | rt :: rest, pos, i, cur =>
    if cur ≤ pos ∧ pos < cur + rt.PlainText.length then some (i, rt)
    else  findOwnerRunGo rest pos (i + 1) (cur + rt.PlainText.length)

/-- Owner-run lookup from the start of the sequence. -/
def findOwnerRun (rts : List RichText) (pos : Nat) : Option (Nat × RichText) :=
  findOwnerRunGo rts pos 0 0

/-- Whether the run owning position `pos` carries the Code format (the
`inCode` flag of both marker finders). -/
def runOwnerCode (rts : List RichText) (pos : Nat) : Bool :=
  match findOwnerRun rts pos with
  | some (_, rt) => rt.Annot.Code
  | none => false

/-- The `Location` payload of a found marker. -/
structure MarkerLocation where
  BlockProperty : LocPath
  RichTextIndex : Nat
  CharStart : Nat
  CharEnd : Nat
deriving DecidableEq, Repr

/-- `FootnoteMarkerInfo` of interfaces.ts. -/
structure FootnoteMarkerInfo where
  Marker : Str
  FullMarker : Str
  Location : MarkerLocation
deriving DecidableEq, Repr

/-- All matches of the inline-marker regex over one joined text. -/
def scanFootnoteMarkers (markerPfx : Str) (cs : Str) : List ScanM :=
  scanAux (tryFootnoteMarkerAt markerPfx) false cs 0 true

/-- footnotes.ts `findAllFootnoteMarkers`: every inline marker of every
location, minus matches whose owning run is code-formatted. -/
def findAllFootnoteMarkers (locations : List RichTextLocation) (markerPfx : Str) :
    List FootnoteMarkerInfo :=
  locations.flatMap fun location =>
    (scanFootnoteMarkers markerPfx (joinPlainText location.richTexts)).filterMap fun m =>
      match findOwnerRun location.richTexts m.index with
      | some (i, rt) =>
        if rt.Annot.Code then none
        else
          some { Marker := m.key, FullMarker := m.matched,
                 Location := { BlockProperty := location.path, RichTextIndex := i,
                               CharStart := m.index, CharEnd := m.index + m.matched.length } }
      | none => none

/-- Flag the first span of a marker part (`markerPart[0].IsFootnoteMarker =
true; markerPart[0].FootnoteRef = marker`). -/
def markFootnoteHead (marker : Str) : List RichText → List RichText
  | [] => []
  | h :: t => { h with IsFootnoteMarker := true, FootnoteRef := some marker } :: t

/-- footnotes.ts `splitRichTextWithMarkers`: split this location's sequence
at each of its markers (right to left; the JS stable `sort` with comparator
`(a, b) => b.CharStart - a.CharStart` is modelled by a stable merge sort
with the comparator's induced `le`). -/
def splitRichTextWithMarkers (location : RichTextLocation)
    (markers : List FootnoteMarkerInfo) : List RichText :=
  let locationMarkers :=
    (markers.filter (fun m => m.Location.BlockProperty = location.path)).mergeSort
      (fun a b => decide (b.Location.CharStart ≤ a.Location.CharStart))
  if locationMarkers.isEmpty then location.richTexts
  else
    locationMarkers.foldl
      (fun result marker =>
        let s1 := splitRichTextsAtCharPosition result marker.Location.CharStart
        let s2 := splitRichTextsAtCharPosition s1.2 marker.FullMarker.length
        s1.1 ++ markFootnoteHead marker.Marker s2.1 ++ s2.2)
      location.richTexts

-- ============================================================================
-- Children access, marker-prefix removal, configuration
-- ============================================================================

/-- footnotes.ts `getChildrenFromBlock` (in source order; a variant whose
`Children` field is absent falls through to the next variant). -/
def getChildrenFromBlock (block : Block) : Option (List Block) :=
  let f := block.fields
  (f.Paragraph.bind (·.Children)) <|> (f.Heading1.bind (·.Children)) <|>
  (f.Heading2.bind (·.Children)) <|> (f.Heading3.bind (·.Children)) <|>
  (f.Quote.bind (·.Children)) <|> (f.Callout.bind (·.Children)) <|>
  (f.Toggle.bind (·.Children)) <|> (f.BulletedListItem.bind (·.Children)) <|>
  (f.NumberedListItem.bind (·.Children)) <|> (f.ToDo.bind (·.Children)) <|>
  (f.SyncedBlock.bind (·.Children))

/-- footnotes.ts `setChildrenInBlock`: assign to the first present variant. -/
def setChildrenInBlock (block : Block) (children : List Block) : Block :=
  let f := block.fields
  Block.mk <|
    if f.Paragraph.isSome then
      { f with Paragraph := f.Paragraph.map fun x => { x with Children := some children } }
    else if f.Heading1.isSome then
      { f with Heading1 := f.Heading1.map fun x => { x with Children := some children } }
    else if f.Heading2.isSome then
      { f with Heading2 := f.Heading2.map fun x => { x with Children := some children } }
    else if f.Heading3.isSome then
      { f with Heading3 := f.Heading3.map fun x => { x with Children := some children } }
    else if f.Quote.isSome then
      { f with Quote := f.Quote.map fun x => { x with Children := some children } }
    else if f.Callout.isSome then
      { f with Callout := f.Callout.map fun x => { x with Children := some children } }
    else if f.Toggle.isSome then
      { f with Toggle := f.Toggle.map fun x => { x with Children := some children } }
    else if f.BulletedListItem.isSome then
      { f with BulletedListItem := f.BulletedListItem.map fun x => { x with Children := some children } }
    else if f.NumberedListItem.isSome then
      { f with NumberedListItem := f.NumberedListItem.map fun x => { x with Children := some children } }
    else if f.ToDo.isSome then
      { f with ToDo := f.ToDo.map fun x => { x with Children := some children } }
    else if f.SyncedBlock.isSome then
      { f with SyncedBlock := f.SyncedBlock.map fun x => { x with Children := some children } }
    else f

/-- footnotes.ts `removeMarkerPrefix` (renamed: `removeMarkerPfx`): drop the
first `prefixLength` characters from the start of a sequence. -/
def removeMarkerPfx : List RichText → Nat → List RichText
  | richTexts, 0 => richTexts
  | [], _ => []
  | richText :: rest, remaining =>
    if richText.PlainText.length ≤ remaining then
      removeMarkerPfx rest (remaining - richText.PlainText.length)
    else
      { richText with
        PlainText := jsSubstringFrom richText.PlainText remaining
        Text := richText.Text.map fun t =>
          { t with Content := jsSubstringFrom t.Content remaining } } :: rest

/-- The footnotes configuration surface (`in-page-footnotes-settings`):
three source flags and the marker prefix (named `markerPfx` here). -/
structure FootnotesConfig where
  sourceEndOfBlock : Bool := false
  sourceStartOfChildBlocks : Bool := false
  sourceBlockComments : Bool := false
  markerPfx : Str := []
deriving Repr

/-- The three footnote source strategies. -/
inductive FootnoteSource where
  | endOfBlock
  | startOfChildBlocks
  | blockComments
deriving DecidableEq, Repr

/-- footnotes.ts `getActiveSource` (fixed priority order). -/
def getActiveSource (config : FootnotesConfig) : Option FootnoteSource :=
  if config.sourceEndOfBlock then some .endOfBlock
  else if config.sourceStartOfChildBlocks then some .startOfChildBlocks
  else if config.sourceBlockComments then some .blockComments
  else none

-- ============================================================================
-- Footnote records
-- ============================================================================

/-- An attachment carried by a block-comment footnote. -/
structure CommentAttachment where
  Category : Option Str := none
  Url : Str := []
  OptimizedUrl : Str := []
  Name : Str := []
  ExpiryTime : Option Str := none
deriving DecidableEq, Repr

/-- `Footnote.Content`: the tagged content variant. -/
inductive FootnoteContent where
  | rich_text (RichTexts : List RichText)
  | blocks (Blocks : List Block)
  | comment (RichTexts : List RichText) (CommentAttachments : Option (List CommentAttachment))

/-- A footnote record. -/
structure Footnote where
  Marker : Str
  FullMarker : Str
  Content : FootnoteContent
  SourceLocation : SourceLoc

/-- `FootnoteExtractionResult`. -/
structure FootnoteExtractionResult where
  footnotes : List Footnote
  hasProcessedRichTexts : Bool
  hasProcessedChildren : Bool

-- ============================================================================
-- End-of-block extraction
-- ============================================================================

/-- Model of a JS `Map<string, α>` as an insertion-ordered association list;
`set` overwrites in place, otherwise appends. -/
def mapSet {α : Type} (m : List (Str × α)) (k : Str) (v : α) : List (Str × α) :=
  if m.any (fun p => p.1 = k) then m.map (fun p => if p.1 = k then (k, v) else p)
  else m ++ [(k, v)]

/-- All matches of the definition regex over the definitions text. -/
def scanDefMatches (markerPfx : Str) (cs : Str) : List ScanM :=
  scanAux (tryDefMatchAt markerPfx) false cs 0 true

/-- Pair each definition start with its end: the next match's index, or the
end of the definitions text. -/
def attachEnds (total : Nat) : List ScanM → List (Str × Nat × Nat)
  | [] => []
  | [m] => [(m.key, m.index + m.matched.length, total)]
  | m :: m' :: rest =>
    (m.key, m.index + m.matched.length, m'.index) :: attachEnds total (m' :: rest)

/-- One definition-entry step of `parseFootnoteDefinitionsFromRichText`:
extract the content range and skip it silently when its trimmed content is
empty. -/
def parseDefStep (definitionsRichTexts : List RichText)
    (definitions : List (Str × List RichText)) (m : Str × Nat × Nat) :
    List (Str × List RichText) :=
  let contentRichTexts := extractRichTextRange definitionsRichTexts m.2.1 m.2.2
  if contentRichTexts.isEmpty ∨ jsTrim (joinPlainText contentRichTexts) = [] then
    definitions
  else mapSet definitions m.1 contentRichTexts

/-- footnotes.ts `parseFootnoteDefinitionsFromRichText`: build the
definitions map, silently skipping empty-content definitions. -/
def parseFootnoteDefinitionsFromRichText (definitionsRichTexts : List RichText)
    (markerPfx : Str) (definitionsText : Str) : List (Str × List RichText) :=
  let ms := attachEnds definitionsText.length (scanDefMatches markerPfx definitionsText)
  ms.foldl (parseDefStep definitionsRichTexts) []

/-- footnotes.ts `extractFootnoteDefinitionsFromRichText`: split at the first
`\n\n[^` and parse the definitions section. -/
def extractFootnoteDefinitionsFromRichText (richTexts : List RichText) (markerPfx : Str)
    (cachedFullText : Str) : List RichText × List (Str × List RichText) :=
  match indexOfFrom (str "\n\n[^") cachedFullText 0 with
  | none => (richTexts, [])
  | some splitPoint =>
    let s := splitRichTextsAtCharPosition richTexts splitPoint
    (s.1, parseFootnoteDefinitionsFromRichText s.2 markerPfx
      (jsSubstringFrom cachedFullText splitPoint))

/-- The per-location body of `extractEndOfBlockFootnotes`'s loop: split off
the definitions, keep those with a matching inline marker, write the body
back, and split the body at the markers. -/
def endOfBlockLocStep (markerPfx : Str) (markers : List FootnoteMarkerInfo)
    (acc : List Footnote × Block) (location : RichTextLocation) :
    List Footnote × Block :=
  let cachedText := joinPlainText location.richTexts
  let r := extractFootnoteDefinitionsFromRichText location.richTexts markerPfx cachedText
  let newFootnotes := r.2.filterMap fun d =>
    if markers.any (fun m => m.Marker = d.1) then
      some { Marker := d.1
             FullMarker := str "[^" ++ markerPfx ++ d.1 ++ str "]"
             Content := FootnoteContent.rich_text d.2
             SourceLocation := location.path.sourceLoc }
    else none
  let blk1 := setPath acc.2 location.path r.1
  let splitRts :=
    splitRichTextWithMarkers { path := location.path, richTexts := r.1 } markers
  (acc.1 ++ newFootnotes, setPath blk1 location.path splitRts)

/-- footnotes.ts `extractEndOfBlockFootnotes`.  The mutation of the block
through the per-location `setter` calls is threaded explicitly; the
`fullTextCache` is the join of each location's sequence. -/
def extractEndOfBlockFootnotes (block : Block) (config : FootnotesConfig) :
    FootnoteExtractionResult × Block :=
  let locations := getAllRichTextLocations block
  let markerPfx := config.markerPfx
  let markers := findAllFootnoteMarkers locations markerPfx
  if markers.isEmpty then
    ({ footnotes := [], hasProcessedRichTexts := false, hasProcessedChildren := false }, block)
  else
    let out := locations.foldl (endOfBlockLocStep markerPfx markers) ([], block)
    ({ footnotes := out.1, hasProcessedRichTexts := true, hasProcessedChildren := false },
      out.2)

-- ============================================================================
-- Start-of-child-blocks extraction
-- ============================================================================

/-- The per-child test of `extractStartOfChildBlocksFootnotes`: does the
child's first location match the content pattern?  On a match, returns the
captured key, `match[0]`, and the child with the matched prefix removed from
its first location. -/
def processChildForFootnote (markerPfx : Str) (child : Block) :
    Option (Str × Str × Block) :=
  match getAllRichTextLocations child with
  | [] => none
  | l0 :: _ =>
    match contentFirstMatch markerPfx (joinPlainText l0.richTexts) with
    | none => none
    | some m =>
      some (m.key, m.matched, setPath child l0.path (removeMarkerPfx l0.richTexts m.matched.length))

/-- footnotes.ts `extractStartOfChildBlocksFootnotes`.  `childrenToCheck` is
`children.slice(0, Math.max(markerCount, children.length))` as in the source
(which is all of `children`); children past `markerCount` are pushed again
from the (mutated) `children` array by the final `slice`. -/
def extractStartOfChildBlocksFootnotes (block : Block) (config : FootnotesConfig) :
    FootnoteExtractionResult × Block :=
  let locations := getAllRichTextLocations block
  let markerPfx := config.markerPfx
  let markers := findAllFootnoteMarkers locations markerPfx
  if markers.isEmpty then
    ({ footnotes := [], hasProcessedRichTexts := false, hasProcessedChildren := false }, block)
  else
    let markerCount := markers.length
    let childrenOpt := getChildrenFromBlock block
    let children := childrenOpt.getD []
    let childrenToCheck := children.take (Nat.max markerCount children.length)
    let results := childrenToCheck.map fun child =>
      (child, processChildForFootnote markerPfx child)
    let footnotes := results.filterMap fun cr =>
      cr.2.map fun r =>
        { Marker := r.1
          FullMarker := str "[^" ++ markerPfx ++ r.1 ++ str "]"
          Content := FootnoteContent.blocks [r.2.2]
          SourceLocation := SourceLoc.content : Footnote }
    let remainingLoop := results.filterMap fun cr => if cr.2.isSome then none else some cr.1
    let mutatedChildren := results.map fun cr => (cr.2.map (fun r => r.2.2)).getD cr.1
    let remainingChildren :=
      remainingLoop ++
        (if childrenOpt.isSome ∧ markerCount < children.length then
          mutatedChildren.drop markerCount
        else [])
    let block1 := setChildrenInBlock block remainingChildren
    let block2 := locations.foldl
      (fun blk location =>
        setPath blk location.path (splitRichTextWithMarkers location markers))
      block1
    ({ footnotes := footnotes, hasProcessedRichTexts := true, hasProcessedChildren := true },
      block2)

-- ============================================================================
-- Citations (citations.ts)
-- ============================================================================

/-- A parsed, pre-formatted bibliography entry. -/
structure ParsedCitationEntry where
  key : Str := []
  authors : Str := []
  year : Str := []
  ieee_formatted : Str := []
  apa_formatted : Str := []
deriving DecidableEq, Repr

/-- A citation occurrence record. -/
structure Citation where
  Key : Str := []
  FormattedEntry : Str := []
  Authors : Str := []
  Year : Str := []
  Index : Option Nat := none
  SourceBlockIds : List Str := []
deriving DecidableEq, Repr

/-- The two bibliography styles (`"apa" | "simplified-ieee"`). -/
inductive CitationStyle where
  | apa
  | simplifiedIeee
deriving DecidableEq, Repr

/-- The result record of `formatCitation`. -/
structure FormattedCitation where
  inText : Str
  bibliography : Str
  authors : Str
  year : Str
deriving DecidableEq, Repr

/-- citations.ts `formatCitation`. -/
def formatCitation (entry : ParsedCitationEntry) (style : CitationStyle) :
    FormattedCitation :=
  { inText := if style = .apa then entry.authors ++ str ", " ++ entry.year else str "[?]"
    bibliography := if style = .apa then entry.apa_formatted else entry.ieee_formatted
    authors := entry.authors
    year := entry.year }

/-- The citations configuration surface: the in-text token format string and
the `bibliography-format`.`simplified-ieee` flag. -/
structure CitationsConfig where
  inTextCitationFormat : Str := []
  bibliographyFormatSimplifiedIeee : Bool := false
deriving Repr

/-- `CitationExtractionResult`. -/
structure CitationExtractionResult where
  citations : List Citation
  processedRichTexts : Bool
deriving Repr

/-- Model of `Map.get` on an insertion-ordered association list. -/
def mapGet {α : Type} (m : List (Str × α)) (k : Str) : Option α :=
  (m.find? (fun p => p.1 = k)).map (·.2)

/-- One collected citation token match (the source's
`{key, start, end, fullMatch}`; `end` is a Lean keyword, hence `endPos`). -/
structure CMatch where
  key : Str
  start : Nat
  endPos : Nat
  fullMatch : Str
deriving DecidableEq, Repr

/-- Regex choice by configured in-text format: `[@key]`, `\cite{key}` or
`#cite(key)`; an unknown format yields none ("nothing to extract"). -/
def citePatternFor (citationFormat : Str) : Option (Str → Option (Str × Str)) :=
  if citationFormat = str "[@key]" then
    some (tryDelimKeyAt (str "[@") ']')
  else if citationFormat = str "\\cite\x7bkey\x7d" then
    some (tryDelimKeyAt (str "\\cite\x7b") '\x7d')
  else if citationFormat = str "#cite(key)" then
    some (tryDelimKeyAt (str "#cite(") ')')
  else none

/-- The match-collection loop of `extractCitationsFromBlock`: all scanner
matches over the location's joined text whose owning run is not
code-formatted. -/
def collectCiteMatches (tm : Str → Option (Str × Str)) (rts : List RichText) :
    List CMatch :=
  (scanAux tm false (joinPlainText rts) 0 true).filterMap fun m =>
    if runOwnerCode rts m.index then none
    else
      some { key := m.key, start := m.index, endPos := m.index + m.matched.length,
             fullMatch := m.matched }

/-- One iteration of the replacement loop of `extractCitationsFromBlock`:
skip an unresolved key; otherwise record the citation and replace the token
span by a single marker span with the default annotation record. -/
def citeLoopStep (bibEntries : List (Str × ParsedCitationEntry)) (style : CitationStyle)
    (acc : List Citation × List RichText) (m : CMatch) :
    List Citation × List RichText :=
  match  mapGet bibEntries m.key with
  | none => acc
  | some entry =>
    let formatted := formatCitation entry style
    let citation : Citation :=
      { Key := m.key, FormattedEntry := formatted.bibliography,
        Authors := formatted.authors, Year := formatted.year,
        Index := none, SourceBlockIds := [] }
    let s1 := splitRichTextsAtCharPosition acc.2 m.start
    let s2 := splitRichTextsAtCharPosition s1.2 (m.endPos - m.start)
    let markerText : RichText :=
      { PlainText := m.fullMatch
        Text := some { Content := m.fullMatch, Link := none }
        Annot := { Bold := false, Italic := false, Strikethrough := false,
                   Underline := false, Code := false, Color := str "default" }
        IsCitationMarker := true
        CitationRef := some m.key }
    (acc.1 ++ [citation], s1.1 ++ [markerText] ++ s2.2)

/-- The per-location body of `extractCitationsFromBlock`'s `for (const
location of locations)` loop. -/
def citeLocStep (bibEntries : List (Str × ParsedCitationEntry)) (style : CitationStyle)
    (tm : Str → Option (Str × Str)) (acc : CitationExtractionResult × Block)
    (location : RichTextLocation) : CitationExtractionResult × Block :=
  let ms := collectCiteMatches tm location.richTexts
  if ms.isEmpty then acc
  else
    let processed := ms.reverse.foldl (citeLoopStep bibEntries style)
      ([], location.richTexts)
    ({ citations := acc.1.citations ++ processed.1, processedRichTexts := true },
      setPath acc.2 location.path processed.2)

/-- citations.ts `extractCitationsFromBlock`; block mutation through the
`setter` calls is threaded explicitly. -/
def extractCitationsFromBlock (block : Block) (config : CitationsConfig)
    (bibEntries : List (Str × ParsedCitationEntry)) :
    CitationExtractionResult × Block :=
  let locations := getAllRichTextLocations block
  if locations.isEmpty then
    ({ citations := [], processedRichTexts := false }, block)
  else
    match  citePatternFor config.inTextCitationFormat with
    | none => ({ citations := [], processedRichTexts := false }, block)
    | some tm =>
      let bibliographyStyle : CitationStyle :=
        if config.bibliographyFormatSimplifiedIeee then .simplifiedIeee else .apa
      locations.foldl (citeLocStep bibEntries bibliographyStyle tm)
        ({ citations := [], processedRichTexts := false }, block)

-- ============================================================================
-- prepareBibliography
-- ============================================================================

/-- `a.Index || 0` (the `Index` field is optional at sort time). -/
def idxOrZero (c : Citation) : Nat := c.Index.getD 0

/-- The comparator `(a, b) => (a.Index || 0) - (b.Index || 0)`. -/
def ieeeCmp (a b : Citation) : Int := (idxOrZero a : Int) - (idxOrZero b : Int)

/-- Model of `String.prototype.localeCompare` as code-point lexicographic
comparison (sign-valued). -/
def lexCmp : Str → Str → Int
  | [], [] => 0
  | [], _ :: _ => -1
  | _ :: _, [] => 1
  | a :: as, b :: bs =>
    if a.toNat < b.toNat then -1
    else if b.toNat < a.toNat then 1
    else lexCmp as bs

/-- The comparator `(a, b) => a.Authors.localeCompare(b.Authors)`. -/
def apaCmp (a b : Citation) : Int := lexCmp a.Authors b.Authors

/-- citations.ts `prepareBibliography`: a copy of the list sorted by the
style's comparator.  JS `Array.prototype.sort` is stable (ES2019), and a
stable sort with a consistent comparator is extensionally unique, so it is
modelled by the stable `List.mergeSort` with `le a b := cmp a b ≤ 0`. -/
def prepareBibliography (citations : List Citation) (style : CitationStyle) :
    List Citation :=
  if style = .simplifiedIeee then
    citations.mergeSort (fun a b => decide (ieeeCmp a b ≤ 0))
  else
    citations.mergeSort (fun a b => decide (apaCmp a b ≤ 0))

-- ============================================================================
-- Block-comments extraction
-- ============================================================================

/-- JS `x || dflt` for optional strings (an empty string is falsy). -/
def jsOrStr (o : Option Str) (dflt : Str) : Str :=
  match o with
  | some s => if s.isEmpty then dflt else s
  | none => dflt

/-- Wire shape of `annotations` on a Notion API rich text item. -/
structure NotionAnnWire where
  bold : Option Bool := none
  italic : Option Bool := none
  strikethrough : Option Bool := none
  underline : Option Bool := none
  code : Option Bool := none
  color : Option Str := none
deriving Repr

/-- Wire shape of `text.link`. -/
structure NotionLinkWire where
  url : Str := []
deriving Repr

/-- Wire shape of `text`. -/
structure NotionTextWire where
  content : Option Str := none
  link : Option NotionLinkWire := none
deriving Repr

/-- Wire shape of `equation`. -/
structure NotionEquationWire where
  expression : Option Str := none
deriving Repr

/-- Wire shape of `mention.date` (`endDate` embeds the wire field `end`). -/
structure NotionDateWire where
  start : Option Str := none
  endDate : Option Str := none
deriving Repr

/-- Wire shape of `mention.page`. -/
structure NotionPageWire where
  id : Str := []
deriving Repr

/-- Wire shape of `mention.link_mention`. -/
structure NotionLinkMentionWire where
  href : Option Str := none
  title : Option Str := none
  icon_url : Option Str := none
  description : Option Str := none
  link_author : Option Str := none
  thumbnail_url : Option Str := none
  height : Option Int := none
  iframe_url : Option Str := none
  link_provider : Option Str := none
deriving Repr

/-- Wire shape of `mention.custom_emoji`. -/
structure NotionEmojiWire where
  name : Option Str := none
  url : Option Str := none
deriving Repr

/-- Wire shape of `mention`. -/
structure NotionMentionWire where
  type : Str := []
  page : Option NotionPageWire := none
  date : Option NotionDateWire := none
  link_mention : Option NotionLinkMentionWire := none
  custom_emoji : Option NotionEmojiWire := none
deriving Repr

/-- Wire shape of one Notion API rich text item. -/
structure NotionRichTextWire where
  type : Str := []
  plain_text : Option Str := none
  href : Option Str := none
  annotations : Option NotionAnnWire := none
  text : Option NotionTextWire := none
  equation : Option NotionEquationWire := none
  mention : Option NotionMentionWire := none
deriving Repr

/-- footnotes.ts `convertNotionRichTextToOurFormat`. -/
def convertNotionRichTextToOurFormat (notionRichTexts : List NotionRichTextWire) :
    List RichText :=
  notionRichTexts.map fun nrt =>
    let base : RichText :=
      { Annot := { Bold := (nrt.annotations.bind (·.bold)).getD false
                   Italic := (nrt.annotations.bind (·.italic)).getD false
                   Strikethrough := (nrt.annotations.bind (·.strikethrough)).getD false
                   Underline := (nrt.annotations.bind (·.underline)).getD false
                   Code := (nrt.annotations.bind (·.code)).getD false
                   Color := jsOrStr (nrt.annotations.bind (·.color)) (str "default") }
        PlainText := jsOrStr nrt.plain_text []
        Href := nrt.href }
    let base :=
      if nrt.type = str "text" then
        match nrt.text with
        | some t =>
          { base with Text := some { Content := jsOrStr t.content []
                                     Link := t.link.map fun l => { Url := l.url } } }
        | none => base
      else base
    let base :=
      if nrt.type = str "equation" then
        match nrt.equation with
        | some e => { base with Equation := some { Expression := jsOrStr e.expression [] } }
        | none => base
      else base
    if nrt.type = str "mention" then
      match nrt.mention with
      | some m =>
        let mention0 : Mention := { Type' := m.type }
        let mention1 :=
          if m.type = str "page" then
            match m.page with
            | some p => { mention0 with Page := some { PageId := p.id, Type' := m.type } }
            | none => mention0
          else if m.type = str "date" then
            let d0 := jsOrStr (m.date.bind (·.start)) (str "Invalid Date")
            let d1 :=
              match m.date.bind (·.endDate) with
              | some e => if e.isEmpty then d0 else d0 ++ str " to " ++ e
              | none => d0
            { mention0 with DateStr := some d1 }
          else if m.type = str "link_mention" then
            match m.link_mention with
            | some w =>
              let lm : LinkMentionV :=
                { Href := w.href, Title := w.title, IconUrl := w.icon_url,
                  Description := w.description, LinkAuthor := w.link_author,
                  ThumbnailUrl := w.thumbnail_url, Height := w.height,
                  IframeUrl := w.iframe_url, LinkProvider := w.link_provider }
              { mention0 with LinkMention := some lm }
            | none => mention0
          else if m.type = str "custom_emoji" then
            match m.custom_emoji with
            | some w => { mention0 with CustomEmoji := some { Name := w.name, Url := w.url } }
            | none => mention0
          else mention0
        { base with Mention := some mention1 }
      | none => base
    else base

/-- Wire shape of an attachment's `file`. -/
structure NotionFileWire where
  url : Option Str := none
  expiry_time : Option Str := none
deriving Repr

/-- Wire shape of one comment attachment. -/
structure NotionAttachmentWire where
  category : Option Str := none
  file : Option NotionFileWire := none
deriving Repr

/-- Wire shape of one comment record. -/
structure NotionCommentWire where
  rich_text : List NotionRichTextWire := []
  attachments : Option (List NotionAttachmentWire) := none
deriving Repr

/-- One provider response: the comment records, a permission denial
(status 403 / `restricted_resource`), or any other failure. -/
inductive CommentsApiResult where
  | ok (results : List NotionCommentWire)
  | permissionError
  | otherError
deriving Repr

/-- The out-of-scope collaborators imported from client.ts/constants
(`isConvImageType`, `OPTIMIZE_IMAGES`), passed as an environment. -/
structure CommentsEnv where
  optimizeImages : Bool := false
  isConvImageType : Str → Bool := fun _ => false

/-- Model of `new URL(u).pathname` for the http(s) URLs the code feeds it:
the part after the authority, up to a query or fragment. -/
def urlPathname (u : Str) : Str :=
  let afterScheme :=
    match  indexOfFrom (str "://") u 0 with
    | some i => (u.drop (i + 3)).dropWhile (fun c => !(c = '/'))
    | none => u
  afterScheme.takeWhile (fun c => !(c = '?') && !(c = '#'))

/-- Index of the last occurrence of a character (JS `lastIndexOf`). -/
def lastIndexOfChar (ch : Char) (s : Str) : Option Nat :=
  match  s.reverse.findIdx? (fun c => c = ch) with
  | some i => some (s.length - 1 - i)
  | none => none

/-- The attachment loop of `extractBlockCommentsFootnotes`: converted
attachment records plus the list of URLs passed to the (out-of-scope)
download collaborator. -/
def processCommentAttachments (env : CommentsEnv)
    (attachments : List NotionAttachmentWire) : List CommentAttachment × List Str :=
  attachments.foldl
    (fun (acc : List CommentAttachment × List Str) attachment =>
      match attachment.file with
      | none => acc
      | some fw =>
        match fw.url with
        | none => acc
        | some originalUrl =>
          if originalUrl.isEmpty then acc
          else
            let isImage := attachment.category = some (str "image")
            let optimizedUrl :=
              if isImage && env.isConvImageType originalUrl && env.optimizeImages then
                (match lastIndexOfChar '.' originalUrl with
                 | some i => originalUrl.take i
                 | none => []) ++ str ".webp"
              else originalUrl
            let fileName :=
              match ((urlPathname originalUrl).splitOn '/').getLast? with
              | some s => if s.isEmpty then str "download" else s
              | none => str "download"
            (acc.1 ++ [{ Category := attachment.category, Url := originalUrl,
                         OptimizedUrl := optimizedUrl, Name := fileName,
                         ExpiryTime := fw.expiry_time }],
             acc.2 ++ [originalUrl]))
    ([], [])

/-- The empty extraction result. -/
def emptyFootnoteResult : FootnoteExtractionResult :=
  { footnotes := [], hasProcessedRichTexts := false, hasProcessedChildren := false }

/-- Outcome of the block-comments strategy: the result, the rewritten block,
whether the Comments API was called, and the download requests issued. -/
structure BlockCommentsOutcome where
  result : FootnoteExtractionResult
  block : Block
  apiRequested : Bool
  downloads : List Str

/-- footnotes.ts `extractBlockCommentsFootnotes`.  The Comments API call is
modelled by `notionClient` (`none` = no client / no `comments` namespace)
and the outcome records whether a request was issued.  `contentPattern` is
created once before the comment loop and its `lastIndex` is *not* reset
between iterations, so the regex state is threaded through the loop. -/
def extractBlockCommentsFootnotes (block : Block) (config : FootnotesConfig)
    (notionClient : Option CommentsApiResult) (env : CommentsEnv) :
    BlockCommentsOutcome :=
  let locations := getAllRichTextLocations block
  let markerPfx := config.markerPfx
  let markers := findAllFootnoteMarkers locations markerPfx
  if markers.isEmpty then
    { result := emptyFootnoteResult, block := block, apiRequested := false, downloads := [] }
  else
    match notionClient with
    | none =>
      { result := emptyFootnoteResult, block := block, apiRequested := false, downloads := [] }
    | some CommentsApiResult.permissionError =>
      { result := emptyFootnoteResult, block := block, apiRequested := true, downloads := [] }
    | some CommentsApiResult.otherError =>
      { result := emptyFootnoteResult, block := block, apiRequested := true, downloads := [] }
    | some (CommentsApiResult.ok comments) =>
      let looped := comments.foldl
        (fun (acc : List Footnote × List Str × Nat) comment =>
          if comment.rich_text.isEmpty then acc
          else
            let firstText := jsOrStr (comment.rich_text.head?.bind (·.plain_text)) []
            let e := execFirst (tryContentMatchAt markerPfx) true firstText acc.2.2
            match e.1 with
            | none => (acc.1, acc.2.1, e.2)
            | some m =>
              let contentRichTexts := convertNotionRichTextToOurFormat comment.rich_text
              let cleaned := removeMarkerPfx contentRichTexts m.matched.length
              let pa :=
                match comment.attachments with
                | some atts =>
                  if atts.isEmpty then ([], []) else processCommentAttachments env atts
                | none => ([], [])
              (acc.1 ++
                [{ Marker := m.key
                   FullMarker := str "[^" ++ markerPfx ++ m.key ++ str "]"
                   Content := FootnoteContent.comment cleaned
                     (if pa.1.isEmpty then none else some pa.1)
                   SourceLocation := SourceLoc.comment }],
               acc.2.1 ++ pa.2, e.2))
        ([], [], 0)
      let block2 := locations.foldl
        (fun blk location =>
          setPath blk location.path (splitRichTextWithMarkers location markers))
        block
      { result := { footnotes := looped.1, hasProcessedRichTexts := true,
                    hasProcessedChildren := false },
        block := block2, apiRequested := true, downloads := looped.2.1 }

/-- footnotes.ts `extractFootnotesFromBlock`: dispatch on the active source. -/
def extractFootnotesFromBlock (block : Block) (config : FootnotesConfig)
    (notionClient : Option CommentsApiResult) (env : CommentsEnv) :
    BlockCommentsOutcome :=
  match  getActiveSource config with
  | some FootnoteSource.endOfBlock =>
    let r := extractEndOfBlockFootnotes block config
    { result := r.1, block := r.2, apiRequested := false, downloads := [] }
  | some FootnoteSource.startOfChildBlocks =>
    let r := extractStartOfChildBlocksFootnotes block config
    { result := r.1, block := r.2, apiRequested := false, downloads := [] }
  | some FootnoteSource.blockComments =>
    extractBlockCommentsFootnotes block config notionClient env
  | none =>
    { result := emptyFootnoteResult, block := block, apiRequested := false, downloads := [] }

-- ============================================================================
-- CloneModel: heap model of cloneRichText's object spreads (for the aliasing
-- behaviour of `{...obj}`, which copies one level and shares nested objects)
-- ============================================================================

namespace CloneModel

/-- A `Text` object: its `Link` sub-object is a reference. -/
structure TextObj where
  Content : Str := []
  Link : Option Nat := none
deriving Repr

/-- A `Mention` object: its `Page`, `LinkMention` and `CustomEmoji`
sub-objects are references. -/
structure MentionObj where
  Type' : Str := []
  Page : Option Nat := none
  DateStr : Option Str := none
  LinkMention : Option Nat := none
  CustomEmoji : Option Nat := none
deriving Repr

/-- A `RichText` object: nested objects are references into the heap. -/
structure RichTextObj where
  PlainText : Str := []
  Href : Option Str := none
  Text : Option Nat := none
  Annot : Nat := 0
  Equation : Option Nat := none
  Mention : Option Nat := none
  InternalHref : Option Nat := none
deriving Repr

/-- The object heap, one store per object kind plus an allocation counter. -/
structure Heap where
  anns : Nat → Annot
  texts : Nat → TextObj
  links : Nat → TextLink
  eqs : Nat → EquationV
  mentions : Nat → MentionObj
  pages : Nat → InterlinkedContent
  linkMentions : Nat → LinkMentionV
  emojis : Nat → CustomEmojiV
  hrefs : Nat → InterlinkedContent
  next : Nat

/-- Pointwise store update. -/
def updf {β : Type} (f : Nat → β) (a : Nat) (v : β) : Nat → β :=
  fun b => if b = a then v else f b

theorem updf_same {β : Type} (f : Nat → β) (a : Nat) (v : β) : updf f a v a = v := by
  simp [updf]

theorem updf_ne {β : Type} (f : Nat → β) (a b : Nat) (v : β) (h : ¬ b = a) :
    updf f a v b = f b := by
  simp [updf, h]

/-- Copy stage for `Text: { ...richText.Text, Link: richText.Text.Link ?
{ ...richText.Text.Link } : undefined }`: a fresh link copy (when present)
and a fresh text object. -/
def cloneTextPart (h : Heap) (o : Option Nat) : Heap × Option Nat :=
  match o with
  | none => (h, none)
  | some ta =>
    let tObj := h.texts ta
    let s0 : Heap × Option Nat :=
      match tObj.Link with
      | none => (h, none)
      | some la =>
        ({ h with links := updf h.links h.next (h.links la), next := h.next + 1 },
          some h.next)
    let ha := s0.1
    ({ ha with
        texts := updf ha.texts ha.next { Content := tObj.Content, Link := s0.2 }
        next := ha.next + 1 },
      some ha.next)

/-- Copy stage for `Annotation: { ...richText.Annotation }`. -/
def cloneAnnPart (h : Heap) (a : Nat) : Heap × Nat :=
  ({ h with anns := updf h.anns h.next (h.anns a), next := h.next + 1 }, h.next)

/-- Copy stage for `Equation: richText.Equation ? { ...richText.Equation } :
undefined`. -/
def cloneEqPart (h : Heap) (o : Option Nat) : Heap × Option Nat :=
  match o with
  | none => (h, none)
  | some ea =>
    ({ h with eqs := updf h.eqs h.next (h.eqs ea), next := h.next + 1 }, some h.next)

/-- Copy stage for `Mention: richText.Mention ? { ...richText.Mention } :
undefined`: the copy keeps the original `Page` / `LinkMention` /
`CustomEmoji` addresses (a one-level spread). -/
def cloneMentionPart (h : Heap) (o : Option Nat) : Heap × Option Nat :=
  match o with
  | none => (h, none)
  | some ma =>
    ({ h with mentions := updf h.mentions h.next (h.mentions ma), next := h.next + 1 },
      some h.next)

/-- Copy stage for `InternalHref: richText.InternalHref ?
{ ...richText.InternalHref } : undefined`. -/
def cloneHrefPart (h : Heap) (o : Option Nat) : Heap × Option Nat :=
  match o with
  | none => (h, none)
  | some ia =>
    ({ h with hrefs := updf h.hrefs h.next (h.hrefs ia), next := h.next + 1 }, some h.next)

/-- footnotes.ts `cloneRichText` over the heap: the spread `{...richText}`
copies the top level; `Text` (with a copied `Link`), `Annotation`,
`Equation`, `Mention` and `InternalHref` are copied one level into fresh
objects — but the `Mention` copy keeps the original `Page` / `LinkMention` /
`CustomEmoji` addresses. -/
def cloneRichText (h : Heap) (rt : RichTextObj) : Heap × RichTextObj :=
  let s1 := cloneTextPart h rt.Text
  let s2 := cloneAnnPart s1.1 rt.Annot
  let s3 := cloneEqPart s2.1 rt.Equation
  let s4 := cloneMentionPart s3.1 rt.Mention
  let s5 := cloneHrefPart s4.1 rt.InternalHref
  (s5.1,
    { rt with
      Text := s1.2
      Annot := s2.2
      Equation := s3.2
      Mention := s4.2
      InternalHref := s5.2 })

/-- Fully dereference a `Text` reference. -/
def observeText (h : Heap) (o : Option Nat) : Option TextContent :=
  o.map fun a =>
    { Content := (h.texts a).Content
      Link := (h.texts a).Link.map fun la => h.links la }

/-- Fully dereference a `Mention` reference. -/
def observeMention (h : Heap) (o : Option Nat) : Option Mention :=
  o.map fun a =>
    { Type' := (h.mentions a).Type'
      Page := (h.mentions a).Page.map fun pa => h.pages pa
      DateStr := (h.mentions a).DateStr
      LinkMention := (h.mentions a).LinkMention.map fun la => h.linkMentions la
      CustomEmoji := (h.mentions a).CustomEmoji.map fun ea => h.emojis ea }

/-- The observable value of a span: every field fully dereferenced. -/
def observe (h : Heap) (rt : RichTextObj) : RichText :=
  { PlainText := rt.PlainText
    Href := rt.Href
    Text := observeText h rt.Text
    Annot := h.anns rt.Annot
    Equation := rt.Equation.map fun a => h.eqs a
    Mention := observeMention h rt.Mention
    InternalHref := rt.InternalHref.map fun a => h.hrefs a }

/-- Mutate `PageId` of the page object at an address (e.g.
`clone.Mention.Page.PageId = v`). -/
def setPagePageId (h : Heap) (a : Nat) (v : Str) : Heap :=
  { h with pages := updf h.pages a { h.pages a with PageId := v } }

/-- Mutate `Bold` of the annotation record at an address. -/
def setAnnBold (h : Heap) (a : Nat) (v : Bool) : Heap :=
  { h with anns := updf h.anns a { h.anns a with Bold := v } }

/-- Mutate `Content` of the text object at an address. -/
def setTextContent (h : Heap) (a : Nat) (v : Str) : Heap :=
  { h with texts := updf h.texts a { h.texts a with Content := v } }

/-- Mutate `Expression` of the equation object at an address. -/
def setEquationExpr (h : Heap) (a : Nat) (v : Str) : Heap :=
  { h with eqs := updf h.eqs a { h.eqs a with Expression := v } }

/-- All addresses reachable from a span are allocated. -/
def RTValid (h : Heap) (rt : RichTextObj) : Prop :=
  rt.Annot < h.next ∧
  (∀ a, rt.Text = some a → a < h.next ∧ ∀ la, (h.texts a).Link = some la → la < h.next) ∧
  (∀ a, rt.Equation = some a → a < h.next) ∧
  (∀ a, rt.Mention = some a → a < h.next) ∧
  (∀ a, rt.InternalHref = some a → a < h.next)

end CloneModel

namespace CloneModel

theorem cloneTextPart_anns (h : Heap) (o : Option Nat) : (cloneTextPart h o).1.anns = h.anns := by
  cases o with
  | none => rfl
  | some ta => cases hL : (h.texts ta).Link <;> simp [cloneTextPart, hL]

theorem cloneTextPart_eqs (h : Heap) (o : Option Nat) : (cloneTextPart h o).1.eqs = h.eqs := by
  cases o with
  | none => rfl
  | some ta => cases hL : (h.texts ta).Link <;> simp [cloneTextPart, hL]

theorem cloneTextPart_mentions (h : Heap) (o : Option Nat) : (cloneTextPart h o).1.mentions = h.mentions := by
  cases o with
  | none => rfl
  | some ta => cases hL : (h.texts ta).Link <;> simp [cloneTextPart, hL]

theorem cloneTextPart_pages (h : Heap) (o : Option Nat) : (cloneTextPart h o).1.pages = h.pages := by
  cases o with
  | none => rfl
  | some ta => cases hL : (h.texts ta).Link <;> simp [cloneTextPart, hL]

theorem cloneTextPart_linkMentions (h : Heap) (o : Option Nat) : (cloneTextPart h o).1.linkMentions = h.linkMentions := by
  cases o with
  | none => rfl
  | some ta => cases hL : (h.texts ta).Link <;> simp [cloneTextPart, hL]

theorem cloneTextPart_emojis (h : Heap) (o : Option Nat) : (cloneTextPart h o).1.emojis = h.emojis := by
  cases o with
  | none => rfl
  | some ta => cases hL : (h.texts ta).Link <;> simp [cloneTextPart, hL]

theorem cloneTextPart_hrefs (h : Heap) (o : Option Nat) : (cloneTextPart h o).1.hrefs = h.hrefs := by
  cases o with
  | none => rfl
  | some ta => cases hL : (h.texts ta).Link <;> simp [cloneTextPart, hL]

theorem cloneTextPart_next (h : Heap) (o : Option Nat) : h.next ≤ (cloneTextPart h o).1.next := by
  cases o with
  | none => exact Nat.le_refl _
  | some ta =>
    cases hL : (h.texts ta).Link with
    | none =>
      simp only [cloneTextPart, hL]
      omega
    | some la =>
      simp only [cloneTextPart, hL]
      omega

theorem cloneAnnPart_texts (h : Heap) (a : Nat) : (cloneAnnPart h a).1.texts = h.texts := by
  rfl

theorem cloneAnnPart_links (h : Heap) (a : Nat) : (cloneAnnPart h a).1.links = h.links := by
  rfl

theorem cloneAnnPart_eqs (h : Heap) (a : Nat) : (cloneAnnPart h a).1.eqs = h.eqs := by
  rfl

theorem cloneAnnPart_mentions (h : Heap) (a : Nat) : (cloneAnnPart h a).1.mentions = h.mentions := by
  rfl

theorem cloneAnnPart_pages (h : Heap) (a : Nat) : (cloneAnnPart h a).1.pages = h.pages := by
  rfl

theorem cloneAnnPart_linkMentions (h : Heap) (a : Nat) : (cloneAnnPart h a).1.linkMentions = h.linkMentions := by
  rfl

theorem cloneAnnPart_emojis (h : Heap) (a : Nat) : (cloneAnnPart h a).1.emojis = h.emojis := by
  rfl

theorem cloneAnnPart_hrefs (h : Heap) (a : Nat) : (cloneAnnPart h a).1.hrefs = h.hrefs := by
  rfl

theorem cloneAnnPart_next (h : Heap) (a : Nat) : h.next ≤ (cloneAnnPart h a).1.next := by
  simp [cloneAnnPart]

theorem cloneEqPart_anns (h : Heap) (o : Option Nat) : (cloneEqPart h o).1.anns = h.anns := by
  cases o <;> rfl

theorem cloneEqPart_texts (h : Heap) (o : Option Nat) : (cloneEqPart h o).1.texts = h.texts := by
  cases o <;> rfl

theorem cloneEqPart_links (h : Heap) (o : Option Nat) : (cloneEqPart h o).1.links = h.links := by
  cases o <;> rfl

theorem cloneEqPart_mentions (h : Heap) (o : Option Nat) : (cloneEqPart h o).1.mentions = h.mentions := by
  cases o <;> rfl

theorem cloneEqPart_pages (h : Heap) (o : Option Nat) : (cloneEqPart h o).1.pages = h.pages := by
  cases o <;> rfl

theorem cloneEqPart_linkMentions (h : Heap) (o : Option Nat) : (cloneEqPart h o).1.linkMentions = h.linkMentions := by
  cases o <;> rfl

theorem cloneEqPart_emojis (h : Heap) (o : Option Nat) : (cloneEqPart h o).1.emojis = h.emojis := by
  cases o <;> rfl

theorem cloneEqPart_hrefs (h : Heap) (o : Option Nat) : (cloneEqPart h o).1.hrefs = h.hrefs := by
  cases o <;> rfl

theorem cloneEqPart_next (h : Heap) (o : Option Nat) : h.next ≤ (cloneEqPart h o).1.next := by
  cases o with
  | none => exact Nat.le_refl _
  | some x => simp [cloneEqPart]

theorem cloneMentionPart_anns (h : Heap) (o : Option Nat) : (cloneMentionPart h o).1.anns = h.anns := by
  cases o <;> rfl

theorem cloneMentionPart_texts (h : Heap) (o : Option Nat) : (cloneMentionPart h o).1.texts = h.texts := by
  cases o <;> rfl

theorem cloneMentionPart_links (h : Heap) (o : Option Nat) : (cloneMentionPart h o).1.links = h.links := by
  cases o <;> rfl

theorem cloneMentionPart_eqs (h : Heap) (o : Option Nat) : (cloneMentionPart h o).1.eqs = h.eqs := by
  cases o <;> rfl

theorem cloneMentionPart_pages (h : Heap) (o : Option Nat) : (cloneMentionPart h o).1.pages = h.pages := by
  cases o <;> rfl

theorem cloneMentionPart_linkMentions (h : Heap) (o : Option Nat) : (cloneMentionPart h o).1.linkMentions = h.linkMentions := by
  cases o <;> rfl

theorem cloneMentionPart_emojis (h : Heap) (o : Option Nat) : (cloneMentionPart h o).1.emojis = h.emojis := by
  cases o <;> rfl

theorem cloneMentionPart_hrefs (h : Heap) (o : Option Nat) : (cloneMentionPart h o).1.hrefs = h.hrefs := by
  cases o <;> rfl

theorem cloneMentionPart_next (h : Heap) (o : Option Nat) : h.next ≤ (cloneMentionPart h o).1.next := by
  cases o with
  | none => exact Nat.le_refl _
  | some x => simp [cloneMentionPart]

theorem cloneHrefPart_anns (h : Heap) (o : Option Nat) : (cloneHrefPart h o).1.anns = h.anns := by
  cases o <;> rfl

theorem cloneHrefPart_texts (h : Heap) (o : Option Nat) : (cloneHrefPart h o).1.texts = h.texts := by
  cases o <;> rfl

theorem cloneHrefPart_links (h : Heap) (o : Option Nat) : (cloneHrefPart h o).1.links = h.links := by
  cases o <;> rfl

theorem cloneHrefPart_eqs (h : Heap) (o : Option Nat) : (cloneHrefPart h o).1.eqs = h.eqs := by
  cases o <;> rfl

theorem cloneHrefPart_mentions (h : Heap) (o : Option Nat) : (cloneHrefPart h o).1.mentions = h.mentions := by
  cases o <;> rfl

theorem cloneHrefPart_pages (h : Heap) (o : Option Nat) : (cloneHrefPart h o).1.pages = h.pages := by
  cases o <;> rfl

theorem cloneHrefPart_linkMentions (h : Heap) (o : Option Nat) : (cloneHrefPart h o).1.linkMentions = h.linkMentions := by
  cases o <;> rfl

theorem cloneHrefPart_emojis (h : Heap) (o : Option Nat) : (cloneHrefPart h o).1.emojis = h.emojis := by
  cases o <;> rfl

theorem cloneHrefPart_next (h : Heap) (o : Option Nat) : h.next ≤ (cloneHrefPart h o).1.next := by
  cases o with
  | none => exact Nat.le_refl _
  | some x => simp [cloneHrefPart]

theorem cloneTextPart_texts_lt (h : Heap) (o : Option Nat) (a : Nat) (ha : a < h.next) :
    (cloneTextPart h o).1.texts a = h.texts a := by
  cases o with
  | none => rfl
  | some ta =>
    cases hL : (h.texts ta).Link with
    | none =>
      simp only [cloneTextPart, hL]
      exact updf_ne _ _ _ _ (by omega)
    | some la =>
      simp only [cloneTextPart, hL]
      exact updf_ne _ _ _ _ (by omega)

theorem cloneTextPart_links_lt (h : Heap) (o : Option Nat) (a : Nat) (ha : a < h.next) :
    (cloneTextPart h o).1.links a = h.links a := by
  cases o with
  | none => rfl
  | some ta =>
    cases hL : (h.texts ta).Link with
    | none => simp only [cloneTextPart, hL]
    | some la =>
      simp only [cloneTextPart, hL]
      exact updf_ne _ _ _ _ (by omega)

theorem cloneAnnPart_anns_lt (h : Heap) (x : Nat) (a : Nat) (ha : a < h.next) :
    (cloneAnnPart h x).1.anns a = h.anns a :=
  updf_ne _ _ _ _ (by omega)

theorem cloneEqPart_eqs_lt (h : Heap) (o : Option Nat) (a : Nat) (ha : a < h.next) :
    (cloneEqPart h o).1.eqs a = h.eqs a := by
  cases o with
  | none => rfl
  | some ea => exact updf_ne _ _ _ _ (by omega)

theorem cloneMentionPart_mentions_lt (h : Heap) (o : Option Nat) (a : Nat)
    (ha : a < h.next) : (cloneMentionPart h o).1.mentions a = h.mentions a := by
  cases o with
  | none => rfl
  | some ma => exact updf_ne _ _ _ _ (by omega)

theorem cloneHrefPart_hrefs_lt (h : Heap) (o : Option Nat) (a : Nat) (ha : a < h.next) :
    (cloneHrefPart h o).1.hrefs a = h.hrefs a := by
  cases o with
  | none => rfl
  | some ia => exact updf_ne _ _ _ _ (by omega)

end CloneModel

namespace CloneModel

theorem cloneHeap_eq_parts (h : Heap) (rt0 : RichTextObj) :
    (cloneRichText h rt0).1 =
      (cloneHrefPart (cloneMentionPart (cloneEqPart (cloneAnnPart
        (cloneTextPart h rt0.Text).1 rt0.Annot).1 rt0.Equation).1 rt0.Mention).1
        rt0.InternalHref).1 := rfl

theorem cloneObj_eq_parts (h : Heap) (rt0 : RichTextObj) :
    (cloneRichText h rt0).2 =
      { rt0 with
        Text := (cloneTextPart h rt0.Text).2
        Annot := (cloneAnnPart (cloneTextPart h rt0.Text).1 rt0.Annot).2
        Equation := (cloneEqPart (cloneAnnPart (cloneTextPart h rt0.Text).1 rt0.Annot).1
          rt0.Equation).2
        Mention := (cloneMentionPart (cloneEqPart (cloneAnnPart
          (cloneTextPart h rt0.Text).1 rt0.Annot).1 rt0.Equation).1 rt0.Mention).2
        InternalHref := (cloneHrefPart (cloneMentionPart (cloneEqPart (cloneAnnPart
          (cloneTextPart h rt0.Text).1 rt0.Annot).1 rt0.Equation).1 rt0.Mention).1
          rt0.InternalHref).2 } := rfl

/-- Reads of previously-allocated objects are unchanged by a clone, and the
stores never touched by the clone are untouched. -/
theorem cloneHeap_reads (h : Heap) (rt0 : RichTextObj) :
    (∀ a, a < h.next → (cloneRichText h rt0).1.anns a = h.anns a) ∧
    (∀ a, a < h.next → (cloneRichText h rt0).1.texts a = h.texts a) ∧
    (∀ a, a < h.next → (cloneRichText h rt0).1.links a = h.links a) ∧
    (∀ a, a < h.next → (cloneRichText h rt0).1.eqs a = h.eqs a) ∧
    (∀ a, a < h.next → (cloneRichText h rt0).1.mentions a = h.mentions a) ∧
    (cloneRichText h rt0).1.pages = h.pages ∧
    (cloneRichText h rt0).1.linkMentions = h.linkMentions ∧
    (cloneRichText h rt0).1.emojis = h.emojis ∧
    (∀ a, a < h.next → (cloneRichText h rt0).1.hrefs a = h.hrefs a) ∧
    h.next ≤ (cloneRichText h rt0).1.next := by
  rw [cloneHeap_eq_parts]
  have n1 := cloneTextPart_next h rt0.Text
  have n2 := cloneAnnPart_next (cloneTextPart h rt0.Text).1 rt0.Annot
  have n3 := cloneEqPart_next (cloneAnnPart (cloneTextPart h rt0.Text).1 rt0.Annot).1
    rt0.Equation
  have n4 := cloneMentionPart_next (cloneEqPart (cloneAnnPart
    (cloneTextPart h rt0.Text).1 rt0.Annot).1 rt0.Equation).1 rt0.Mention
  have n5 := cloneHrefPart_next (cloneMentionPart (cloneEqPart (cloneAnnPart
    (cloneTextPart h rt0.Text).1 rt0.Annot).1 rt0.Equation).1 rt0.Mention).1
    rt0.InternalHref
  refine ⟨?_, ?_, ?_, ?_, ?_, ?_, ?_, ?_, ?_, ?_⟩
  · intro a ha
    rw [cloneHrefPart_anns, cloneMentionPart_anns, cloneEqPart_anns,
      cloneAnnPart_anns_lt _ _ _ (by omega), cloneTextPart_anns]
  · intro a ha
    rw [cloneHrefPart_texts, cloneMentionPart_texts, cloneEqPart_texts, cloneAnnPart_texts,
      cloneTextPart_texts_lt _ _ _ ha]
  · intro a ha
    rw [cloneHrefPart_links, cloneMentionPart_links, cloneEqPart_links, cloneAnnPart_links,
      cloneTextPart_links_lt _ _ _ ha]
  · intro a ha
    rw [cloneHrefPart_eqs, cloneMentionPart_eqs, cloneEqPart_eqs_lt _ _ _ (by omega),
      cloneAnnPart_eqs, cloneTextPart_eqs]
  · intro a ha
    rw [cloneHrefPart_mentions, cloneMentionPart_mentions_lt _ _ _ (by omega),
      cloneEqPart_mentions, cloneAnnPart_mentions, cloneTextPart_mentions]
  · rw [cloneHrefPart_pages, cloneMentionPart_pages, cloneEqPart_pages, cloneAnnPart_pages,
      cloneTextPart_pages]
  · rw [cloneHrefPart_linkMentions, cloneMentionPart_linkMentions, cloneEqPart_linkMentions,
      cloneAnnPart_linkMentions, cloneTextPart_linkMentions]
  · rw [cloneHrefPart_emojis, cloneMentionPart_emojis, cloneEqPart_emojis,
      cloneAnnPart_emojis, cloneTextPart_emojis]
  · intro a ha
    rw [cloneHrefPart_hrefs_lt _ _ _ (by omega), cloneMentionPart_hrefs, cloneEqPart_hrefs,
      cloneAnnPart_hrefs, cloneTextPart_hrefs]
  · omega

/-- The clone leaves the observable value of every valid span unchanged. -/
theorem observe_cloneHeap (h : Heap) (rt0 rt : RichTextObj) (hv : RTValid h rt) :
    observe (cloneRichText h rt0).1 rt = observe h rt := by
  obtain ⟨hvA, hvT, hvE, hvM, hvH⟩ := hv
  obtain ⟨rA, rT, rL, rE, rM, rP, rLM, rEm, rH, rN⟩ := cloneHeap_reads h rt0
  simp only [observe]
  congr 1
  · cases ht : rt.Text with
    | none => rfl
    | some ta =>
      obtain ⟨hta, hla⟩ := hvT ta ht
      simp only [observeText, Option.map, rT ta hta]
      cases hLk : (h.texts ta).Link with
      | none => simp [hLk]
      | some la => simp [hLk, rL la (hla la hLk)]
  · exact rA rt.Annot hvA
  · cases he : rt.Equation with
    | none => rfl
    | some ea => simp [rE ea (hvE ea he)]
  · cases hm : rt.Mention with
    | none => rfl
    | some ma =>
      simp only [observeMention, Option.map, rM ma (hvM ma hm), rP, rLM, rEm]
  · cases hh : rt.InternalHref with
    | none => rfl
    | some ia => simp [rH ia (hvH ia hh)]

end CloneModel

namespace CloneModel

theorem observeText_cloneTextPart (h : Heap) (o : Option Nat) :
    observeText (cloneTextPart h o).1 (cloneTextPart h o).2 = observeText h o := by
  cases o with
  | none => rfl
  | some ta =>
    cases hL : (h.texts ta).Link with
    | none => simp [cloneTextPart, observeText, hL, updf]
    | some la => simp [cloneTextPart, observeText, hL, updf]

theorem observeMention_congr (H H' : Heap) (hM : H'.mentions = H.mentions)
    (hP : H'.pages = H.pages) (hL : H'.linkMentions = H.linkMentions)
    (hE : H'.emojis = H.emojis) (o : Option Nat) :
    observeMention H' o = observeMention H o := by
  cases o <;> simp [observeMention, hM, hP, hL, hE]

theorem observeMention_cloneMentionPart (h : Heap) (o : Option Nat) :
    observeMention (cloneMentionPart h o).1 (cloneMentionPart h o).2 = observeMention h o := by
  cases o with
  | none => rfl
  | some ma => simp [cloneMentionPart, observeMention, updf_same]

/-- Structural equality: the clone observes exactly as the original span. -/
theorem observe_clone_self (h : Heap) (rt0 : RichTextObj) :
    observe (cloneRichText h rt0).1 (cloneRichText h rt0).2 = observe h rt0 := by
  rw [cloneHeap_eq_parts, cloneObj_eq_parts]
  simp only [observe]
  congr 1
  · -- Text component
    have htx : (cloneHrefPart (cloneMentionPart (cloneEqPart (cloneAnnPart
        (cloneTextPart h rt0.Text).1 rt0.Annot).1 rt0.Equation).1 rt0.Mention).1
        rt0.InternalHref).1.texts = (cloneTextPart h rt0.Text).1.texts := by
      rw [cloneHrefPart_texts, cloneMentionPart_texts, cloneEqPart_texts, cloneAnnPart_texts]
    have hlk : (cloneHrefPart (cloneMentionPart (cloneEqPart (cloneAnnPart
        (cloneTextPart h rt0.Text).1 rt0.Annot).1 rt0.Equation).1 rt0.Mention).1
        rt0.InternalHref).1.links = (cloneTextPart h rt0.Text).1.links := by
      rw [cloneHrefPart_links, cloneMentionPart_links, cloneEqPart_links, cloneAnnPart_links]
    have hcongr : ∀ (H H' : Heap), H'.texts = H.texts → H'.links = H.links →
        ∀ o, observeText H' o = observeText H o := by
      intro H H' h1 h2 o
      cases o <;> simp [observeText, h1, h2]
    rw [hcongr _ _ htx hlk]
    exact observeText_cloneTextPart h rt0.Text
  · -- Annotation component
    rw [cloneHrefPart_anns, cloneMentionPart_anns, cloneEqPart_anns]
    simp only [cloneAnnPart, updf_same]
    rw [cloneTextPart_anns]
  · -- Equation component
    cases he : rt0.Equation with
    | none => simp [cloneEqPart]
    | some ea =>
      simp only [cloneEqPart, Option.map, updf]
      rw [cloneHrefPart_eqs, cloneMentionPart_eqs]
      simp only [cloneEqPart, updf_same]
      rw [cloneAnnPart_eqs, cloneTextPart_eqs]
  · -- Mention component
    rw [observeMention_congr _ _ (cloneHrefPart_mentions _ _) (cloneHrefPart_pages _ _)
        (cloneHrefPart_linkMentions _ _) (cloneHrefPart_emojis _ _)]
    rw [observeMention_cloneMentionPart]
    exact observeMention_congr _ _
      (by rw [cloneEqPart_mentions, cloneAnnPart_mentions, cloneTextPart_mentions])
      (by rw [cloneEqPart_pages, cloneAnnPart_pages, cloneTextPart_pages])
      (by rw [cloneEqPart_linkMentions, cloneAnnPart_linkMentions, cloneTextPart_linkMentions])
      (by rw [cloneEqPart_emojis, cloneAnnPart_emojis, cloneTextPart_emojis])
      _
  · -- InternalHref component
    cases hh : rt0.InternalHref with
    | none => simp [cloneHrefPart]
    | some ia =>
      simp only [cloneHrefPart, Option.map, updf_same]
      rw [cloneMentionPart_hrefs, cloneEqPart_hrefs, cloneAnnPart_hrefs, cloneTextPart_hrefs]

end CloneModel

-- ============================================================================
-- Proof layer: the citation replacement loop
-- ============================================================================

/-- The citation record built by the loop body of `extractCitationsFromBlock`
for a resolved match. -/
def citationOf (style : CitationStyle) (m : CMatch) (entry : ParsedCitationEntry) : Citation :=
  { Key := m.key, FormattedEntry := (formatCitation entry style).bibliography,
    Authors := (formatCitation entry style).authors,
    Year := (formatCitation entry style).year,
    Index := none, SourceBlockIds := [] }

theorem citeLoopStep_citations (bib : List (Str × ParsedCitationEntry)) (style : CitationStyle)
    (acc : List Citation × List RichText) (m : CMatch) :
    (citeLoopStep bib style acc m).1 =
      acc.1 ++ ((mapGet bib m.key).map (citationOf style m)).toList := by
  unfold citeLoopStep
  cases h : mapGet bib m.key with
  | none => simp
  | some e => simp [citationOf, formatCitation]

theorem citeLoopStep_unresolved (bib : List (Str × ParsedCitationEntry))
    (style : CitationStyle) (acc : List Citation × List RichText) (m : CMatch)
    (h : mapGet bib m.key = none) : citeLoopStep bib style acc m = acc := by
  unfold citeLoopStep
  rw [h]

theorem citeLoop_citations (bib : List (Str × ParsedCitationEntry)) (style : CitationStyle) :
    ∀ (ms : List CMatch) (acc : List Citation × List RichText),
      (ms.foldl (citeLoopStep bib style) acc).1 =
        acc.1 ++ ms.filterMap (fun m => (mapGet bib m.key).map (citationOf style m))
  | [], acc => by simp
  | m :: ms, acc => by
    rw [List.foldl_cons, citeLoop_citations bib style ms, citeLoopStep_citations]
    cases h : mapGet bib m.key <;> simp [h]

theorem citeLoopStep_join (bib : List (Str × ParsedCitationEntry)) (style : CitationStyle)
    (acc : List Citation × List RichText) (m : CMatch)
    (hm : ((joinPlainText acc.2).drop m.start).take (m.endPos - m.start) = m.fullMatch) :
    joinPlainText (citeLoopStep bib style acc m).2 = joinPlainText acc.2 := by
  unfold citeLoopStep
  cases h : mapGet bib m.key with
  | none => rfl
  | some e =>
    simp only [joinPlainText_append, joinPlainText_cons, joinPlainText_nil, List.append_nil]
    rw [split_join_take, split_join_drop, split_join_drop, ← hm,
      List.append_assoc, List.take_append_drop, List.take_append_drop]

theorem citeLoop_join (bib : List (Str × ParsedCitationEntry)) (style : CitationStyle)
    (orig : Str) :
    ∀ (ms : List CMatch) (acc : List Citation × List RichText),
      (∀ m ∈ ms, (orig.drop m.start).take (m.endPos - m.start) = m.fullMatch) →
      joinPlainText acc.2 = orig →
      joinPlainText ((ms.foldl (citeLoopStep bib style) acc)).2 = orig
  | [], _, _, hacc => hacc
  | m :: ms, acc, hms, hacc => by
    rw [List.foldl_cons]
    refine citeLoop_join bib style orig ms _
      (fun m' h => hms m' (List.mem_cons_of_mem _ h)) ?_
    rw [citeLoopStep_join bib style acc m (by rw [hacc]; exact hms m (List.mem_cons_self _ _))]
    exact hacc

theorem mem_collectCiteMatches (tm : Str → Option (Str × Str)) (htm : MatcherSpec tm)
    (rts : List RichText) (m : CMatch) (hm : m ∈ collectCiteMatches tm rts) :
    ((joinPlainText rts).drop m.start).take (m.endPos - m.start) = m.fullMatch ∧
    runOwnerCode rts m.start = false := by
  unfold collectCiteMatches at hm
  simp only [List.mem_filterMap] at hm
  obtain ⟨s, hs, hf⟩ := hm
  by_cases hc : runOwnerCode rts s.index
  · rw [if_pos hc] at hf; cases hf
  · rw [if_neg hc] at hf
    injection hf with hf
    subst hf
    constructor
    · obtain ⟨off, h1, h2⟩ := scanAux_substring tm false htm _ 0 true s hs
      have hoff : off = s.index := by omega
      subst hoff
      simpa [Nat.add_sub_cancel_left] using h2
    · simpa using hc

theorem citePatternFor_spec (fmt : Str) (tm : Str → Option (Str × Str))
    (h : citePatternFor fmt = some tm) : MatcherSpec tm := by
  unfold citePatternFor at h
  split at h
  · injection h with h'; rw [← h']; exact tryDelimKeyAt_spec _ _
  · split at h
    · injection h with h'; rw [← h']; exact tryDelimKeyAt_spec _ _
    · split at h
      · injection h with h'; rw [← h']; exact tryDelimKeyAt_spec _ _
      · cases h

theorem citeLoc_processed_join (bib : List (Str × ParsedCitationEntry))
    (style : CitationStyle) (tm : Str → Option (Str × Str)) (htm : MatcherSpec tm)
    (rts : List RichText) :
    joinPlainText (((collectCiteMatches tm rts).reverse.foldl (citeLoopStep bib style)
      ([], rts)).2) = joinPlainText rts :=
  citeLoop_join bib style _ _ _
    (fun m hm => (mem_collectCiteMatches tm htm rts m (List.mem_reverse.mp hm)).1) rfl

theorem citeFold_join (bib : List (Str × ParsedCitationEntry)) (style : CitationStyle)
    (tm : Str → Option (Str × Str)) (htm : MatcherSpec tm) (b : Block) :
    ∀ (locs : List RichTextLocation) (acc : CitationExtractionResult × Block),
      (∀ loc ∈ locs, getPathOpt b loc.path = some loc.richTexts) →
      (∀ p, (getPathOpt acc.2 p).map joinPlainText = (getPathOpt b p).map joinPlainText) →
      ∀ p, (getPathOpt (locs.foldl (citeLocStep bib style tm) acc).2 p).map joinPlainText
        = (getPathOpt b p).map joinPlainText
  | [], _, _, hinv => hinv
  | loc :: locs, acc, hlocs, hinv => by
    rw [List.foldl_cons]
    refine citeFold_join bib style tm htm b locs _
      (fun l hl => hlocs l (List.mem_cons_of_mem _ hl)) ?_
    intro p
    simp only [citeLocStep]
    split
    · exact hinv p
    · by_cases hp : p = loc.path
      · subst hp
        rw [getPathOpt_setPath_same]
        have hb := hlocs loc (List.mem_cons_self _ _)
        have hjoin := citeLoc_processed_join bib style tm htm loc.richTexts
        have hinvp := hinv loc.path
        cases hacc : getPathOpt acc.2 loc.path with
        | none =>
          rw [hacc, hb] at hinvp
          simp at hinvp
        | some w =>
          rw [hb]
          simpa using hjoin
      · rw [getPathOpt_setPath_ne _ _ _ _ hp]
        exact hinv p

-- ============================================================================
-- Proof layer: annotations of produced citation-marker spans
-- ============================================================================

/-- The fixed annotation record the loop gives every produced marker span. -/
def defaultAnnot : Annot :=
  { Bold := false, Italic := false, Strikethrough := false,
    Underline := false, Code := false, Color := str "default" }

/-- A span flagged as a citation marker carries the default annotations. -/
def markerAnnOk (rt : RichText) : Prop :=
  rt.IsCitationMarker = true → rt.Annot = defaultAnnot

theorem markerAnnOk_setPT (rt : RichText) (s : Str) (h : markerAnnOk rt) :
    markerAnnOk (setRichTextPT (cloneRichText rt) s) := by
  rw [cloneRichText_eq]
  intro hflag
  exact h hflag

theorem splitGo_annOk (k : Nat) :
    ∀ (rts : List RichText) (cur : Nat), (∀ rt ∈ rts, markerAnnOk rt) →
      (∀ rt ∈ (splitGo k rts cur).1, markerAnnOk rt) ∧
      (∀ rt ∈ (splitGo k rts cur).2, markerAnnOk rt)
  | [], _, _ => by simp [splitGo]
  | rt :: rest, cur, h => by
    have ih := splitGo_annOk k rest (cur + rt.PlainText.length)
      (fun x hx => h x (List.mem_cons_of_mem _ hx))
    have hrt := h rt (List.mem_cons_self _ _)
    simp only [splitGo]
    split
    · refine ⟨ih.1, fun x hx => ?_⟩
      rcases List.mem_cons.mp hx with h1 | h2
      · rw [h1]; exact hrt
      · exact ih.2 x h2
    · split
      · refine ⟨fun x hx => ?_, ih.2⟩
        rcases List.mem_cons.mp hx with h1 | h2
        · rw [h1]; exact hrt
        · exact ih.1 x h2
      · constructor
        · intro x hx
          rcases List.mem_append.mp hx with h1 | h2
          · split at h1
            · rcases List.mem_singleton.mp h1 with h1'
              rw [h1']; exact markerAnnOk_setPT rt _ hrt
            · cases h1
          · exact ih.1 x h2
        · intro x hx
          rcases List.mem_append.mp hx with h1 | h2
          · split at h1
            · rcases List.mem_singleton.mp h1 with h1'
              rw [h1']; exact markerAnnOk_setPT rt _ hrt
            · cases h1
          · exact ih.2 x h2

theorem split_annOk (rts : List RichText) (k : Nat) (h : ∀ rt ∈ rts, markerAnnOk rt) :
    (∀ rt ∈ (splitRichTextsAtCharPosition rts k).1, markerAnnOk rt) ∧
    (∀ rt ∈ (splitRichTextsAtCharPosition rts k).2, markerAnnOk rt) :=
  splitGo_annOk k rts 0 h

theorem citeLoopStep_annOk (bib : List (Str × ParsedCitationEntry)) (style : CitationStyle)
    (acc : List Citation × List RichText) (m : CMatch)
    (h : ∀ rt ∈ acc.2, markerAnnOk rt) :
    ∀ rt ∈ (citeLoopStep bib style acc m).2, markerAnnOk rt := by
  cases hk : mapGet bib m.key with
  | none => rw [citeLoopStep_unresolved bib style acc m hk]; exact h
  | some e =>
    simp only [citeLoopStep, hk]
    intro rt hrt
    have hs1 := split_annOk acc.2 m.start h
    have hs2 := split_annOk (splitRichTextsAtCharPosition acc.2 m.start).2
      (m.endPos - m.start) hs1.2
    rcases List.mem_append.mp hrt with h1 | h2
    · rcases List.mem_append.mp h1 with h11 | h12
      · exact hs1.1 rt h11
      · rcases List.mem_singleton.mp h12 with h12'
        rw [h12']
        intro _
        rfl
    · exact hs2.2 rt h2

theorem citeLoop_annOk (bib : List (Str × ParsedCitationEntry)) (style : CitationStyle) :
    ∀ (ms : List CMatch) (acc : List Citation × List RichText),
      (∀ rt ∈ acc.2, markerAnnOk rt) →
      ∀ rt ∈ (ms.foldl (citeLoopStep bib style) acc).2, markerAnnOk rt
  | [], _, h => h
  | m :: ms, acc, h => by
    rw [List.foldl_cons]
    exact citeLoop_annOk bib style ms _ (citeLoopStep_annOk bib style acc m h)

theorem citeFold_annOk (bib : List (Str × ParsedCitationEntry)) (style : CitationStyle)
    (tm : Str → Option (Str × Str)) :
    ∀ (locs : List RichTextLocation) (acc : CitationExtractionResult × Block),
      (∀ loc ∈ locs, ∀ rt ∈ loc.richTexts, markerAnnOk rt) →
      (∀ p rts, getPathOpt acc.2 p = some rts → ∀ rt ∈ rts, markerAnnOk rt) →
      ∀ p rts, getPathOpt (locs.foldl (citeLocStep bib style tm) acc).2 p = some rts →
        ∀ rt ∈ rts, markerAnnOk rt
  | [], _, _, hinv => hinv
  | loc :: locs, acc, hlocs, hinv => by
    rw [List.foldl_cons]
    refine citeFold_annOk bib style tm locs _
      (fun l hl => hlocs l (List.mem_cons_of_mem _ hl)) ?_
    intro p rts hget rt hrt
    revert hget
    simp only [citeLocStep]
    split
    · intro hget; exact hinv p rts hget rt hrt
    · by_cases hp : p = loc.path
      · subst hp
        rw [getPathOpt_setPath_same]
        cases hacc : getPathOpt acc.2 loc.path with
        | none => intro hget; cases hget
        | some w =>
          intro hget
          simp only [Option.map] at hget
          injection hget with hget
          rw [← hget] at hrt
          exact citeLoop_annOk bib style _ _
            (fun x hx => hlocs loc (List.mem_cons_self _ _) x hx) rt hrt
      · rw [getPathOpt_setPath_ne _ _ _ _ hp]
        intro hget
        exact hinv p rts hget rt hrt

-- ============================================================================
-- Proof layer: footnote definition skip rules
-- ============================================================================

theorem mapSet_pred {α : Type} (P : Str × α → Prop) (m : List (Str × α)) (k : Str) (v : α)
    (hm : ∀ d ∈ m, P d) (hv : P (k, v)) : ∀ d ∈ mapSet m k v, P d := by
  intro d hd
  unfold mapSet at hd
  split at hd
  · rcases List.mem_map.mp hd with ⟨x, hx, he⟩
    by_cases hxk : x.1 = k
    · rw [if_pos hxk] at he; rw [← he]; exact hv
    · rw [if_neg hxk] at he; rw [← he]; exact hm x hx
  · rcases List.mem_append.mp hd with h1 | h2
    · exact hm d h1
    · rw [List.mem_singleton.mp h2]; exact hv

theorem parseDefStep_pred (rts : List RichText)
    (defs : List (Str × List RichText)) (m : Str × Nat × Nat)
    (h : ∀ d ∈ defs, ¬ d.2.isEmpty = true ∧ ¬ jsTrim (joinPlainText d.2) = []) :
    ∀ d ∈ parseDefStep rts defs m,
      ¬ d.2.isEmpty = true ∧ ¬ jsTrim (joinPlainText d.2) = [] := by
  simp only [parseDefStep]
  split
  · exact h
  · rename_i hcond
    push_neg at hcond
    exact mapSet_pred _ defs m.1 _ h ⟨hcond.1, hcond.2⟩

theorem parseDefs_fold_pred (rts : List RichText) :
    ∀ (ms : List (Str × Nat × Nat)) (defs : List (Str × List RichText)),
      (∀ d ∈ defs, ¬ d.2.isEmpty = true ∧ ¬ jsTrim (joinPlainText d.2) = []) →
      ∀ d ∈ ms.foldl (parseDefStep rts) defs,
        ¬ d.2.isEmpty = true ∧ ¬ jsTrim (joinPlainText d.2) = []
  | [], _, h => h
  | m :: ms, defs, h => by
    rw [List.foldl_cons]
    exact parseDefs_fold_pred rts ms _ (parseDefStep_pred rts defs m h)

/-- Every definition surviving `parseFootnoteDefinitionsFromRichText` has
nonempty content with nonempty trimmed text. -/
theorem parseDefs_pred (rts : List RichText) (markerPfx : Str) (text : Str) :
    ∀ d ∈ parseFootnoteDefinitionsFromRichText rts markerPfx text,
      ¬ d.2.isEmpty = true ∧ ¬ jsTrim (joinPlainText d.2) = [] :=
  parseDefs_fold_pred rts _ [] (by simp)

theorem endOfBlockLocStep_marker (markerPfx : Str) (markers : List FootnoteMarkerInfo)
    (acc : List Footnote × Block) (location : RichTextLocation)
    (h : ∀ f ∈ acc.1, ∃ m ∈ markers, m.Marker = f.Marker) :
    ∀ f ∈ (endOfBlockLocStep markerPfx markers acc location).1,
      ∃ m ∈ markers, m.Marker = f.Marker := by
  intro f hf
  simp only [endOfBlockLocStep] at hf
  rcases List.mem_append.mp hf with h1 | h2
  · exact h f h1
  · rcases List.mem_filterMap.mp h2 with ⟨d, hd, he⟩
    split at he
    · rename_i hany
      injection he with he
      rcases List.any_eq_true.mp hany with ⟨m, hm, hmk⟩
      refine ⟨m, hm, ?_⟩
      rw [← he]
      exact of_decide_eq_true hmk
    · cases he

theorem endOfBlock_fold_marker (markerPfx : Str) (markers : List FootnoteMarkerInfo) :
    ∀ (locs : List RichTextLocation) (acc : List Footnote × Block),
      (∀ f ∈ acc.1, ∃ m ∈ markers, m.Marker = f.Marker) →
      ∀ f ∈ (locs.foldl (endOfBlockLocStep markerPfx markers) acc).1,
        ∃ m ∈ markers, m.Marker = f.Marker
  | [], _, h => h
  | loc :: locs, acc, h => by
    rw [List.foldl_cons]
    exact endOfBlock_fold_marker markerPfx markers locs _
      (endOfBlockLocStep_marker _ _ _ _ h)

/-- Every footnote produced by end-of-block extraction has a matching inline
marker somewhere in the block (orphaned definitions are dropped). -/
theorem endOfBlock_footnote_has_marker (block : Block) (config : FootnotesConfig) :
    ∀ f ∈ (extractEndOfBlockFootnotes block config).1.footnotes,
      ∃ m ∈ findAllFootnoteMarkers (getAllRichTextLocations block) config.markerPfx,
        m.Marker = f.Marker := by
  intro f hf
  rw [extractEndOfBlockFootnotes] at hf
  split at hf
  · cases hf
  · dsimp only at hf
    exact endOfBlock_fold_marker config.markerPfx
      (findAllFootnoteMarkers (getAllRichTextLocations block) config.markerPfx)
      (getAllRichTextLocations block) ([], block)
      (fun f hf => absurd hf (List.not_mem_nil f)) f hf

namespace CloneModel

/-- The clone's annotation copy lives at a fresh address. -/
theorem clone_annAddr_ge (h : Heap) (rt : RichTextObj) :
    h.next ≤ (cloneRichText h rt).2.Annot := by
  rw [cloneObj_eq_parts]
  have := cloneTextPart_next h rt.Text
  simp only [cloneAnnPart]
  omega

/-- Mutating an annotation record at an address no span field points at does
not change the span's observation. -/
theorem observe_setAnnBold_ne (H : Heap) (a : Nat) (v : Bool) (rt : RichTextObj)
    (hne : ¬ rt.Annot = a) : observe (setAnnBold H a v) rt = observe H rt := by
  simp only [observe, setAnnBold, observeText, observeMention]
  rw [updf_ne _ _ _ _ hne]

/-- The clone's fresh `Mention` object is a verbatim copy of the original
record: its nested `Page` / `LinkMention` / `CustomEmoji` addresses are the
original's. -/
theorem clone_mention_copied (h : Heap) (rt : RichTextObj) (ma : Nat)
    (hm : rt.Mention = some ma) :
    ∃ cm, (cloneRichText h rt).2.Mention = some cm ∧
      (cloneRichText h rt).1.mentions cm = h.mentions ma ∧ h.next ≤ cm := by
  refine ⟨(cloneEqPart (cloneAnnPart (cloneTextPart h rt.Text).1 rt.Annot).1
    rt.Equation).1.next, ?_, ?_, ?_⟩
  · rw [cloneObj_eq_parts]
    simp only [hm, cloneMentionPart]
  · rw [cloneHeap_eq_parts, cloneHrefPart_mentions, hm]
    simp only [cloneMentionPart, updf_same]
    rw [cloneEqPart_mentions, cloneAnnPart_mentions, cloneTextPart_mentions]
  · have n1 := cloneTextPart_next h rt.Text
    have n2 := cloneAnnPart_next (cloneTextPart h rt.Text).1 rt.Annot
    have n3 := cloneEqPart_next (cloneAnnPart (cloneTextPart h rt.Text).1 rt.Annot).1
      rt.Equation
    omega

/-- Observation of a span through a heap after mutating the page object at
the address its mention's `Page` holds. -/
theorem observe_setPagePageId_mention (H : Heap) (rt : RichTextObj) (ma pa : Nat)
    (hm : rt.Mention = some ma) (hp : (H.mentions ma).Page = some pa) (v : Str) :
    (observe (setPagePageId H pa v) rt).Mention =
      some { Type' := (H.mentions ma).Type'
             Page := some { H.pages pa with PageId := v }
             DateStr := (H.mentions ma).DateStr
             LinkMention := (H.mentions ma).LinkMention.map fun la => H.linkMentions la
             CustomEmoji := (H.mentions ma).CustomEmoji.map fun ea => H.emojis ea } := by
  simp [observe, observeMention, setPagePageId, hm, hp, updf_same]

end CloneModel

-- ============================================================================
-- Proof layer: comparators of prepareBibliography
-- ============================================================================

theorem ieeeCmp_le_trans (a b c : Citation) (h1 : ieeeCmp a b ≤ 0) (h2 : ieeeCmp b c ≤ 0) :
    ieeeCmp a c ≤ 0 := by
  unfold ieeeCmp at h1 h2 ⊢
  omega

theorem ieeeCmp_le_total (a b : Citation) : ieeeCmp a b ≤ 0 ∨ ieeeCmp b a ≤ 0 := by
  unfold ieeeCmp
  omega

theorem lexCmp_nil_le (c : Str) : lexCmp [] c ≤ 0 := by
  cases c <;> simp [lexCmp]

theorem lexCmp_neg : ∀ (a b : Str), lexCmp b a = -lexCmp a b
  | [], [] => rfl
  | [], _ :: _ => rfl
  | _ :: _, [] => rfl
  | a :: as, b :: bs => by
    simp only [lexCmp]
    by_cases h1 : a.toNat < b.toNat
    · rw [if_neg (by omega), if_pos h1, if_pos h1]
      rfl
    · by_cases h2 : b.toNat < a.toNat
      · rw [if_pos h2, if_neg h1, if_pos h2]
      · rw [if_neg h2, if_neg h1, if_neg h1, if_neg h2]
        exact lexCmp_neg as bs

theorem lexCmp_le_trans : ∀ (a b c : Str),
    lexCmp a b ≤ 0 → lexCmp b c ≤ 0 → lexCmp a c ≤ 0
  | [], _, c, _, _ => lexCmp_nil_le c
  | _ :: _, [], _, h1, _ => by simp [lexCmp] at h1
  | _ :: _, _ :: _, [], _, h2 => by simp [lexCmp] at h2
  | a :: as, b :: bs, c :: cs, h1, h2 => by
    simp only [lexCmp] at h1 h2 ⊢
    by_cases hab : a.toNat < b.toNat
    · by_cases hbc : b.toNat < c.toNat
      · rw [if_pos (by omega)]
        decide
      · have hcb : ¬ c.toNat < b.toNat := by
          intro hcb
          rw [if_neg hbc, if_pos hcb] at h2
          omega
        rw [if_pos (by omega)]
        decide
    · have hba : ¬ b.toNat < a.toNat := by
        intro hba
        rw [if_neg hab, if_pos hba] at h1
        omega
      rw [if_neg hab, if_neg hba] at h1
      by_cases hbc : b.toNat < c.toNat
      · rw [if_pos (by omega)]
        decide
      · have hcb : ¬ c.toNat < b.toNat := by
          intro hcb
          rw [if_neg hbc, if_pos hcb] at h2
          omega
        rw [if_neg hbc, if_neg hcb] at h2
        rw [if_neg (by omega), if_neg (by omega)]
        exact lexCmp_le_trans as bs cs h1 h2

theorem lexCmp_le_total (a b : Str) : lexCmp a b ≤ 0 ∨ lexCmp b a ≤ 0 := by
  have h := lexCmp_neg a b
  omega

theorem apaCmp_le_trans (a b c : Citation) (h1 : apaCmp a b ≤ 0) (h2 : apaCmp b c ≤ 0) :
    apaCmp a c ≤ 0 :=
  lexCmp_le_trans _ _ _ h1 h2

theorem apaCmp_le_total (a b : Citation) : apaCmp a b ≤ 0 ∨ apaCmp b a ≤ 0 :=
  lexCmp_le_total a.Authors b.Authors

theorem ieeeLe_trans : ∀ (a b c : Citation), decide (ieeeCmp a b ≤ 0) = true →
    decide (ieeeCmp b c ≤ 0) = true → decide (ieeeCmp a c ≤ 0) = true := by
  intro a b c h1 h2
  exact decide_eq_true (ieeeCmp_le_trans a b c (of_decide_eq_true h1) (of_decide_eq_true h2))

theorem ieeeLe_total : ∀ (a b : Citation),
    (decide (ieeeCmp a b ≤ 0) || decide (ieeeCmp b a ≤ 0)) = true := by
  intro a b
  rcases ieeeCmp_le_total a b with h | h <;> simp [decide_eq_true h]

theorem apaLe_trans : ∀ (a b c : Citation), decide (apaCmp a b ≤ 0) = true →
    decide (apaCmp b c ≤ 0) = true → decide (apaCmp a c ≤ 0) = true := by
  intro a b c h1 h2
  exact decide_eq_true (apaCmp_le_trans a b c (of_decide_eq_true h1) (of_decide_eq_true h2))

theorem apaLe_total : ∀ (a b : Citation),
    (decide (apaCmp a b ≤ 0) || decide (apaCmp b a ≤ 0)) = true := by
  intro a b
  rcases apaCmp_le_total a b with h | h <;> simp [decide_eq_true h]

-- ============================================================================
-- Concrete scenarios (the spec's worked examples)
-- ============================================================================

/-- A plain text span whose `Text.Content` matches its `PlainText`. -/
def tRT (s : String) : RichText := { PlainText := str s, Text := some { Content := str s } }

/-- `rich_text` content of a footnote, when that is its variant. -/
def footnoteRichTextContent (f : Footnote) : Option (List RichText) :=
  match f.Content with
  | .rich_text rts => some rts
  | _ => none

/-- Ids of the blocks carried by a `blocks` footnote. -/
def footnoteBlockIds (f : Footnote) : List Str :=
  match f.Content with
  | .blocks bs => bs.map (fun b => b.fields.Id)
  | _ => []

/-- Joined paragraph text of a block. -/
def blockParaText (b : Block) : Str :=
  (b.fields.Paragraph.map (fun p => joinPlainText p.RichTexts)).getD []

/-- The end-of-block example: body, one inline `[^ft_a]` reference, then a
definitions section with keys `a` and `b` (`b` has no inline marker). -/
def c7Block : Block := Block.mk
  { Id := str "b7"
    Paragraph := some { RichTexts :=
      [tRT "See it here", tRT "[^ft_a]",
       tRT "\n\n[^ft_a]: first note\n\n[^ft_b]: second note"] } }

def c7Config : FootnotesConfig := { sourceEndOfBlock := true, markerPfx := str "ft_" }

/-- Child 0 of the start-of-child-blocks example: matches `[^ft_a]: ` and has
its own descendant. -/
def c2Child0Desc : Block := Block.mk
  { Id := str "c0a", Paragraph := some { RichTexts := [tRT "desc"] } }

def c2Child0 : Block := Block.mk
  { Id := str "c0"
    Paragraph := some { RichTexts := [tRT "[^ft_a]: Footnote one."]
                        Children := some [c2Child0Desc] } }

/-- Child 1: plain text, no definition pattern. -/
def c2Child1 : Block := Block.mk
  { Id := str "c1", Paragraph := some { RichTexts := [tRT "Just text."] } }

/-- Child 2: matches `[^ft_b]: `. -/
def c2Child2 : Block := Block.mk
  { Id := str "c2", Paragraph := some { RichTexts := [tRT "[^ft_b]: Footnote two."] } }

/-- The parent block: two inline markers and the three children above. -/
def c2Parent : Block := Block.mk
  { Id := str "p"
    Paragraph := some { RichTexts := [tRT "Intro [^ft_a] mid [^ft_b] end"]
                        Children := some [c2Child0, c2Child1, c2Child2] } }

def c2Config : FootnotesConfig := { sourceStartOfChildBlocks := true, markerPfx := str "ft_" }

/-- The citation example: one resolvable key (`smith2020`) and one
unresolvable key (`doe2019`) in one paragraph. -/
def c4Block : Block := Block.mk
  { Id := str "b4"
    Paragraph := some { RichTexts := [tRT "Prior work [@smith2020] shows... and [@doe2019] too"] } }

def c4Config : CitationsConfig :=
  { inTextCitationFormat := str "[@key]", bibliographyFormatSimplifiedIeee := false }

def c4Entry : ParsedCitationEntry :=
  { key := str "smith2020", authors := str "Smith", year := str "2020"
    ieee_formatted := str "SMITH-IEEE", apa_formatted := str "SMITH-APA" }

def c4Bib : List (Str × ParsedCitationEntry) := [(str "smith2020", c4Entry)]

/-- The expected output spans: the `doe2019` token's literal text survives
inside the untouched tail span; the `smith2020` token became a marker span. -/
def c4ExpectedSpans : List RichText :=
  [ { PlainText := str "Prior work ", Text := some { Content := str "Prior work " } },
    { PlainText := str "[@smith2020]", Text := some { Content := str "[@smith2020]" },
      IsCitationMarker := true, CitationRef := some (str "smith2020") },
    { PlainText := str " shows... and [@doe2019] too",
      Text := some { Content := str " shows... and [@doe2019] too" } } ]

/-- A markerless block for the frame-effect claim. -/
def c6Block : Block := Block.mk
  { Id := str "b6", Paragraph := some { RichTexts := [tRT "hello world"] } }

def c6Config : FootnotesConfig := { sourceEndOfBlock := true, markerPfx := str "ft_" }

namespace CloneModel

/-- A heap with one mention object (address 1) pointing at one page object
(address 0). -/
def egHeap : Heap :=
  { anns := fun _ => {}, texts := fun _ => {}, links := fun _ => {},
    eqs := fun _ => {},
    mentions := fun a => if a = 1 then { Type' := str "page", Page := some 0 } else {},
    pages := fun a => if a = 0 then { PageId := str "orig" } else {},
    linkMentions := fun _ => {}, emojis := fun _ => {}, hrefs := fun _ => {},
    next := 3 }

/-- A span holding that mention. -/
def egRT : RichTextObj := { PlainText := str "x", Annot := 2, Mention := some 1 }

theorem egValid : RTValid egHeap egRT := by
  refine ⟨by decide, ?_, ?_, ?_, ?_⟩
  · intro a h; simp [egRT] at h
  · intro a h; simp [egRT] at h
  · intro a h
    simp [egRT] at h
    subst h
    decide
  · intro a h; simp [egRT] at h

end CloneModel

-- ============================================================================
-- Claim theorems
-- ============================================================================

/-- C1: for every rich-text sequence `S` and every character position `k`,
splitting `S` at `k` yields `(before, after)` with
`join(before) ++ join(after) = join(S)`: the split drops and duplicates no
character.  (Proved for all `k`, in particular `0 ≤ k ≤ len(join S)`.) -/
theorem C1_split_preserves_join (S : List RichText) (k : Nat) :
    joinPlainText (splitRichTextsAtCharPosition S k).1 ++
      joinPlainText (splitRichTextsAtCharPosition S k).2 = joinPlainText S := by
  rw [split_join_take, split_join_drop, List.take_append_drop]

/-- C2 (code behaviour on the claim's scenario): with two inline markers
`[^ft_a]`, `[^ft_b]` and three children — child 0 matching `[^ft_a]: `,
child 1 plain text, child 2 matching `[^ft_b]: ` — the code produces the two
footnotes (with their descendants), but the remaining children are
`[child 1, child 2]` (child 2 with its marker prefix removed), not
`[child 1]` alone: the consumed child 2 also remains, contradicting the
claimed behaviour (`children.slice(0, Math.max(markerCount,
children.length))` checks every child, and the final
`children.slice(markerCount)` re-appends consumed tails). -/
theorem C2_consumed_child_also_remains :
    ((extractStartOfChildBlocksFootnotes c2Parent c2Config).1.footnotes.map
        (fun f => (f.Marker, footnoteBlockIds f)))
      = [(str "a", [str "c0"]), (str "b", [str "c2"])] ∧
    ((getChildrenFromBlock (extractStartOfChildBlocksFootnotes c2Parent c2Config).2).map
        (fun cs => cs.map (fun c => (c.fields.Id, blockParaText c))))
      = some [(str "c1", str "Just text."), (str "c2", str "Footnote two.")] := by
  exact ⟨by decide, by decide⟩

namespace CloneModel

/-- C3 counterexample: for the one-mention heap `egHeap` and span `egRT`,
the clone's `Mention` copy (fresh address 4) still holds the original's
`Page` address 0, and mutating that page object through the clone's heap
changes the original span's observation — the copy is not independent. -/
theorem C3_clone_not_independent_counterexample :
    (cloneRichText egHeap egRT).2.Mention = some 4 ∧
    ((cloneRichText egHeap egRT).1.mentions 4).Page = some 0 ∧
    observe (setPagePageId (cloneRichText egHeap egRT).1 0 (str "mutated")) egRT ≠
      observe egHeap egRT := by
  exact ⟨by decide, by decide, by decide⟩

/-- C3 (amended): `cloneRichText` is a structurally equal copy whose
one-level spreads are independent (mutating the clone's annotation record
does not affect the original), but the `Mention` spread is shallow: the
copied mention record keeps the original's nested `Page` address, so a
mutation of that page object reached through the clone is observed through
the original span as well. -/
theorem C3_clone_shallow_copy (h : Heap) (rt : RichTextObj) (hv : RTValid h rt) :
    observe (cloneRichText h rt).1 (cloneRichText h rt).2 = observe h rt ∧
    (∀ v : Bool,
      observe (setAnnBold (cloneRichText h rt).1 (cloneRichText h rt).2.Annot v) rt =
        observe h rt) ∧
    (∀ ma, rt.Mention = some ma →
      ∃ cm, (cloneRichText h rt).2.Mention = some cm ∧
        (cloneRichText h rt).1.mentions cm = h.mentions ma) ∧
    (∀ ma pa v, rt.Mention = some ma → (h.mentions ma).Page = some pa →
      (observe (setPagePageId (cloneRichText h rt).1 pa v) rt).Mention =
        some { Type' := (h.mentions ma).Type'
               Page := some { h.pages pa with PageId := v }
               DateStr := (h.mentions ma).DateStr
               LinkMention := (h.mentions ma).LinkMention.map fun la => h.linkMentions la
               CustomEmoji := (h.mentions ma).CustomEmoji.map fun ea => h.emojis ea }) := by
  obtain ⟨rA, rT, rL, rE, rM, rP, rLM, rEm, rH, rN⟩ := cloneHeap_reads h rt
  refine ⟨observe_clone_self h rt, ?_, ?_, ?_⟩
  · intro v
    rw [observe_setAnnBold_ne _ _ _ _
      (by have h1 := clone_annAddr_ge h rt; have h2 := hv.1; omega)]
    exact observe_cloneHeap h rt rt hv
  · intro ma hm
    obtain ⟨cm, hcm, hcopy, _⟩ := clone_mention_copied h rt ma hm
    exact ⟨cm, hcm, hcopy⟩
  · intro ma pa v hm hp
    have hma : ma < h.next := hv.2.2.2.1 ma hm
    rw [observe_setPagePageId_mention _ rt ma pa hm (by rw [rM ma hma]; exact hp) v]
    rw [rM ma hma, rP, rLM, rEm]

/-- Closed instance of the amended C3 claim at the concrete heap. -/
theorem C3_clone_shallow_copy_witness :
    observe (cloneRichText egHeap egRT).1 (cloneRichText egHeap egRT).2 =
      observe egHeap egRT ∧
    (∀ v : Bool,
      observe (setAnnBold (cloneRichText egHeap egRT).1
        (cloneRichText egHeap egRT).2.Annot v) egRT = observe egHeap egRT) ∧
    (∀ ma, egRT.Mention = some ma →
      ∃ cm, (cloneRichText egHeap egRT).2.Mention = some cm ∧
        (cloneRichText egHeap egRT).1.mentions cm = egHeap.mentions ma) ∧
    (∀ ma pa v, egRT.Mention = some ma → (egHeap.mentions ma).Page = some pa →
      (observe (setPagePageId (cloneRichText egHeap egRT).1 pa v) egRT).Mention =
        some { Type' := (egHeap.mentions ma).Type'
               Page := some { egHeap.pages pa with PageId := v }
               DateStr := (egHeap.mentions ma).DateStr
               LinkMention := (egHeap.mentions ma).LinkMention.map
                 fun la => egHeap.linkMentions la
               CustomEmoji := (egHeap.mentions ma).CustomEmoji.map
                 fun ea => egHeap.emojis ea }) :=
  C3_clone_shallow_copy egHeap egRT egValid

end CloneModel

/-- C4: an unresolved citation key is a soft skip — the replacement-loop step
leaves both the citations and the spans untouched for it, the citations
produced by the whole loop are exactly those of the resolvable matches (in
order), and on the worked example the `doe2019` token's literal text survives
unchanged while `[@smith2020]` is replaced and recorded. -/
theorem C4_unresolved_key_soft_skip :
    (∀ (bib : List (Str × ParsedCitationEntry)) (style : CitationStyle)
        (acc : List Citation × List RichText) (m : CMatch),
        mapGet bib m.key = none → citeLoopStep bib style acc m = acc) ∧
    (∀ (bib : List (Str × ParsedCitationEntry)) (style : CitationStyle)
        (ms : List CMatch) (rts : List RichText),
        (ms.foldl (citeLoopStep bib style) ([], rts)).1 =
          ms.filterMap (fun m => (mapGet bib m.key).map (citationOf style m))) ∧
    ((extractCitationsFromBlock c4Block c4Config c4Bib).1.citations.map (fun c => c.Key)
        = [str "smith2020"]) ∧
    (getPathOpt (extractCitationsFromBlock c4Block c4Config c4Bib).2 .paragraph
        = some c4ExpectedSpans) := by
  refine ⟨citeLoopStep_unresolved, ?_, by decide, by decide⟩
  intro bib style ms rts
  simpa using citeLoop_citations bib style ms ([], rts)

/-- C5: a footnote-marker or citation-token match whose starting character
falls in a run with the `Code` annotation is discarded: every marker the
footnote finder returns comes from one of the given locations with a
non-code owning run, and every collected citation match has a non-code
owning run. -/
theorem C5_code_runs_suppress_matches :
    (∀ (locations : List RichTextLocation) (markerPfx : Str)
        (info : FootnoteMarkerInfo), info ∈ findAllFootnoteMarkers locations markerPfx →
        ∃ loc ∈ locations, info.Location.BlockProperty = loc.path ∧
          runOwnerCode loc.richTexts info.Location.CharStart = false) ∧
    (∀ (tm : Str → Option (Str × Str)) (rts : List RichText) (c : CMatch),
        c ∈ collectCiteMatches tm rts → runOwnerCode rts c.start = false) := by
  constructor
  · intro locations markerPfx info hinfo
    unfold findAllFootnoteMarkers at hinfo
    rcases List.mem_flatMap.mp hinfo with ⟨loc, hloc, hmem⟩
    rcases List.mem_filterMap.mp hmem with ⟨m, _, hf⟩
    refine ⟨loc, hloc, ?_⟩
    split at hf
    · rename_i i rt heq
      split at hf
      · cases hf
      · rename_i hcode
        injection hf with hf
        rw [← hf]
        refine ⟨rfl, ?_⟩
        dsimp only
        unfold runOwnerCode
        rw [heq]
        exact eq_false_of_ne_true hcode
    · cases hf
  · intro tm rts c hc
    unfold collectCiteMatches at hc
    rcases List.mem_filterMap.mp hc with ⟨s, _, hf⟩
    by_cases hcode : runOwnerCode rts s.index
    · rw [if_pos hcode] at hf; cases hf
    · rw [if_neg hcode] at hf
      injection hf with hf
      rw [← hf]
      exact eq_false_of_ne_true hcode

/-- C6: when the marker finder finds no inline marker in a block, all three
extraction strategies return the block unmodified with zero footnotes, and
the block-comments strategy issues no Comments API request. -/
theorem C6_no_markers_frame (block : Block) (config : FootnotesConfig)
    (notionClient : Option CommentsApiResult) (env : CommentsEnv)
    (h : findAllFootnoteMarkers (getAllRichTextLocations block) config.markerPfx = []) :
    extractEndOfBlockFootnotes block config =
      ({ footnotes := [], hasProcessedRichTexts := false, hasProcessedChildren := false },
        block) ∧
    extractStartOfChildBlocksFootnotes block config =
      ({ footnotes := [], hasProcessedRichTexts := false, hasProcessedChildren := false },
        block) ∧
    extractBlockCommentsFootnotes block config notionClient env =
      { result := emptyFootnoteResult, block := block, apiRequested := false,
        downloads := [] } := by
  refine ⟨?_, ?_, ?_⟩
  · simp only [extractEndOfBlockFootnotes, h, List.isEmpty_nil, if_true]
  · simp only [extractStartOfChildBlocksFootnotes, h, List.isEmpty_nil, if_true]
  · simp only [extractBlockCommentsFootnotes, h, List.isEmpty_nil, if_true]

/-- Closed instance of C6 at a markerless one-paragraph block. -/
theorem C6_no_markers_frame_witness :
    extractEndOfBlockFootnotes c6Block c6Config =
      ({ footnotes := [], hasProcessedRichTexts := false, hasProcessedChildren := false },
        c6Block) ∧
    extractStartOfChildBlocksFootnotes c6Block c6Config =
      ({ footnotes := [], hasProcessedRichTexts := false, hasProcessedChildren := false },
        c6Block) ∧
    extractBlockCommentsFootnotes c6Block c6Config none {} =
      { result := emptyFootnoteResult, block := c6Block, apiRequested := false,
        downloads := [] } :=
  C6_no_markers_frame c6Block c6Config none {} (by decide)

/-- C7: on the worked end-of-block example the extraction yields exactly one
footnote — key `a` with (trimmed) content "first note" — while the orphaned
`b` definition is dropped; in general a parsed definition always has
nonempty trimmed content (empty ones are silently skipped) and every
produced footnote's key has an inline marker in the block (orphans are
silently skipped). -/
theorem C7_endOfBlock_definition_skips :
    ((extractEndOfBlockFootnotes c7Block c7Config).1.footnotes.map
        (fun f => (f.Marker, (footnoteRichTextContent f).map joinPlainText)))
      = [(str "a", some (str "first note"))] ∧
    (∀ (rts : List RichText) (markerPfx text : Str),
        ∀ d ∈ parseFootnoteDefinitionsFromRichText rts markerPfx text,
          ¬ d.2.isEmpty = true ∧ ¬ jsTrim (joinPlainText d.2) = []) ∧
    (∀ (block : Block) (config : FootnotesConfig),
        ∀ f ∈ (extractEndOfBlockFootnotes block config).1.footnotes,
          ∃ m ∈ findAllFootnoteMarkers (getAllRichTextLocations block) config.markerPfx,
            m.Marker = f.Marker) :=
  ⟨by decide, parseDefs_pred, endOfBlock_footnote_has_marker⟩

/-- C8: `prepareBibliography` returns a permutation of its input that is
non-decreasing for the style's comparator (`Index` difference for
simplified-ieee, lexicographic `Authors` comparison for apa), and the sort
is stable: any pair in comparator order keeps its relative order. -/
theorem C8_prepareBibliography_sorted_stable :
    (∀ (citations : List Citation) (style : CitationStyle),
        (prepareBibliography citations style).Perm citations) ∧
    (∀ (citations : List Citation),
        (prepareBibliography citations .simplifiedIeee).Pairwise
          (fun a b => ieeeCmp a b ≤ 0)) ∧
    (∀ (citations : List Citation),
        (prepareBibliography citations .apa).Pairwise (fun a b => apaCmp a b ≤ 0)) ∧
    (∀ (citations : List Citation) (a b : Citation),
        [a, b].Sublist citations → ieeeCmp a b ≤ 0 →
        [a, b].Sublist (prepareBibliography citations .simplifiedIeee)) ∧
    (∀ (citations : List Citation) (a b : Citation),
        [a, b].Sublist citations → apaCmp a b ≤ 0 →
        [a, b].Sublist (prepareBibliography citations .apa)) := by
  refine ⟨?_, ?_, ?_, ?_, ?_⟩
  · intro citations style
    cases style <;> exact List.mergeSort_perm _ _
  · intro citations
    have hs := List.sorted_mergeSort ieeeLe_trans ieeeLe_total citations
    exact hs.imp (fun h => of_decide_eq_true h)
  · intro citations
    have hs := List.sorted_mergeSort apaLe_trans apaLe_total citations
    exact hs.imp (fun h => of_decide_eq_true h)
  · intro citations a b hsub hab
    exact List.pair_sublist_mergeSort ieeeLe_trans ieeeLe_total (decide_eq_true hab) hsub
  · intro citations a b hsub hab
    exact List.pair_sublist_mergeSort apaLe_trans apaLe_total (decide_eq_true hab) hsub

/-- C9: citation extraction preserves the joined plain text at every location
path of the block, for every configuration and bibliography map. -/
theorem C9_extractCitations_preserves_join (block : Block) (config : CitationsConfig)
    (bibEntries : List (Str × ParsedCitationEntry)) (p : LocPath) :
    (getPathOpt (extractCitationsFromBlock block config bibEntries).2 p).map joinPlainText
      = (getPathOpt block p).map joinPlainText := by
  rw [extractCitationsFromBlock]
  split
  · rfl
  · cases hpat : citePatternFor config.inTextCitationFormat with
    | none => rfl
    | some tm =>
      dsimp only
      exact citeFold_join bibEntries _ tm (citePatternFor_spec _ tm hpat) block
        (getAllRichTextLocations block) _
        (fun loc hl => mem_getAllRichTextLocations block loc hl)
        (fun _ => rfl) p

/-- The worked example block has exactly one rich-text path. -/
theorem c4Block_paths (p : LocPath) :
    getPathOpt c4Block p =
      if p = LocPath.paragraph then
        some [tRT "Prior work [@smith2020] shows... and [@doe2019] too"]
      else none := by
  cases p <;> rfl

/-- C10: when no span of the input block is flagged as a citation marker,
every flagged span of the extracted block carries the fixed default
annotation record (all format flags false, color "default"), whatever the
original token's run annotations were. -/
theorem C10_citation_markers_default_annotations (block : Block)
    (config : CitationsConfig) (bibEntries : List (Str × ParsedCitationEntry))
    (hin : ∀ p rts, getPathOpt block p = some rts →
      ∀ rt ∈ rts, rt.IsCitationMarker = false) :
    ∀ p rts, getPathOpt (extractCitationsFromBlock block config bibEntries).2 p = some rts →
      ∀ rt ∈ rts, rt.IsCitationMarker = true → rt.Annot = defaultAnnot := by
  intro p rts hget rt hrt hflag
  revert hget
  rw [extractCitationsFromBlock]
  split
  · intro hget
    have h0 := hin p rts hget rt hrt
    rw [h0] at hflag
    simp at hflag
  · cases hpat : citePatternFor config.inTextCitationFormat with
    | none =>
      intro hget
      have h0 := hin p rts hget rt hrt
      rw [h0] at hflag
      simp at hflag
    | some tm =>
      dsimp only
      intro hget
      refine citeFold_annOk bibEntries _ tm (getAllRichTextLocations block) _
        ?_ ?_ p rts hget rt hrt hflag
      · intro loc hl x hx hfl
        have h0 := hin loc.path loc.richTexts
          (mem_getAllRichTextLocations block loc hl) x hx
        rw [h0] at hfl
        simp at hfl
      · intro p' rts' hg x hx hfl
        have h0 := hin p' rts' hg x hx
        rw [h0] at hfl
        simp at hfl

/-- Closed instance of C10 at the worked example: the produced
`[@smith2020]` marker span carries the default annotation record. -/
theorem C10_citation_markers_default_annotations_witness :
    (c4ExpectedSpans.getD 1 {}).Annot = defaultAnnot :=
  C10_citation_markers_default_annotations c4Block c4Config c4Bib
    (by
      intro p rts hg rt hrt
      rw [c4Block_paths] at hg
      split at hg
      · injection hg with hg
        subst hg
        simp at hrt
        subst hrt
        decide
      · cases hg)
    LocPath.paragraph c4ExpectedSpans (by decide) (c4ExpectedSpans.getD 1 {})
    (by decide) (by decide)
